import Mathlib

/-!
# Verification of `reactive_two_field_collection.h`

Shallow embedding of `reactive::ReactiveTwoFieldCollection` (single-file
C++ header, src/database/reactive_two_field_collection.h) at its quiescent,
single-threaded semantics.

Element fields, totals and keys are embedded as `Int` (the claims only
instantiate the templates at integral values); ids are `Nat`, starting at 1
as in the source (`nextId_(1)`).  The TBB `concurrent_hash_map`s are
embedded as association lists, the `std::map<total, size_t>` count-maps
(`idx1_`/`idx2_`) as key-sorted association lists, and the ordered
`std::set<id, IdComparator>` as a list of ids kept in comparator order.
The reactive-notification primitive (`reaction::Var` / `batchExecute`) is
external to the repository; its observable effect is embedded per the
spec's contract in §6: a `set` outside a batch is one downstream
notification cycle, `batchExecute` produces a single cycle for everything
inside it.
-/

namespace RTFC

/-- Aggregation mode, mirroring `enum class AggMode { Add, Min, Max }`. -/
inductive AggMode where
  | Add : AggMode
  | Min : AggMode
  | Max : AggMode
deriving DecidableEq, Repr

/-- `true` exactly on `AggMode::Add`; mirrors the `Total1Mode == AggMode::Add`
compile-time branches. -/
def AggMode.isAdd : AggMode → Bool
  | .Add => true
  | _ => false

/-- `detail::DefaultDelta1`: `Δ = new2 - last2`. -/
def defaultDelta1 (new1 new2 last1 last2 : Int) : Int :=
  let _ := new1
  let _ := last1
  new2 - last2

/-- `detail::DefaultDelta2`: `Δ = new2*new1 - last2*last1`. -/
def defaultDelta2 (new1 new2 last1 last2 : Int) : Int :=
  new2 * new1 - last2 * last1

/-- `DefaultExtract1`: returns `elem2`. -/
def defaultExtract1 (e1 e2 : Int) : Int :=
  let _ := e1
  e2

/-- `DefaultExtract2`: returns `elem2 * elem1`. -/
def defaultExtract2 (e1 e2 : Int) : Int := e2 * e1

/-- `DefaultCompare`: lexicographic by `elem1` then `elem2`. -/
def defaultCompare (a1 a2 b1 b2 : Int) : Bool :=
  if a1 < b1 then true
  else if b1 < a1 then false
  else a2 < b2

/-- Template/constructor configuration of one `ReactiveTwoFieldCollection`
instantiation: aggregation modes, delta/extract functors, the compile-time
`CompareFn` used to seed the runtime comparator, `combined_atomic` and
`MaintainOrderedIndex`.  The apply functors are fixed at their defaults
(`detail::DefaultApplyAdd`), as in every claim. -/
structure Config where
  mode1 : AggMode
  mode2 : AggMode
  delta1 : Int → Int → Int → Int → Int
  delta2 : Int → Int → Int → Int → Int
  extract1 : Int → Int → Int
  extract2 : Int → Int → Int
  compare : Int → Int → Int → Int → Bool
  combinedAtomic : Bool
  maintainOrdered : Bool

/-- `ElemRecord` at quiescence: the reactive cells' values coincide with the
`lastElem1`/`lastElem2` snapshots (the monitor writes the snapshot
synchronously inside every `set`).  `key = none` embeds the
`KeyT = std::monostate` instantiation for this element. -/
structure Rec where
  lastElem1 : Int
  lastElem2 : Int
  key : Option Int
deriving DecidableEq, Repr

/-- Association-list lookup (embeds `concurrent_hash_map::find`). -/
def alookup {α β : Type} [DecidableEq α] (k : α) : List (α × β) → Option β
  | [] => none
  | p :: t => if p.1 = k then some p.2 else alookup k t

/-- Collection state: `elems_`, `key_index_`, `ordered_index_`,
`idx1_`/`idx2_`, the two published totals, the runtime comparator `cmp_`,
`nextId_` and `elem_count_`; `notifyCycles` counts downstream notification
cycles of the reactive graph (spec §6 contract). -/
structure Coll where
  elems : List (Nat × Rec)
  keyIndex : List (Int × Nat)
  orderedIndex : List Nat
  idx1 : List (Int × Nat)
  idx2 : List (Int × Nat)
  total1 : Int
  total2 : Int
  cmp : Int → Int → Int → Int → Bool
  nextId : Nat
  elemCount : Nat
  notifyCycles : Nat

/-- Freshly constructed collection (constructor body). -/
def initColl (cfg : Config) : Coll :=
  { elems := [], keyIndex := [], orderedIndex := [], idx1 := [], idx2 := [],
    total1 := 0, total2 := 0, cmp := cfg.compare, nextId := 1, elemCount := 0,
    notifyCycles := 0 }

/-- `insert_index1` / `insert_index2`: `++idx[v]` on the sorted count-map. -/
def insertIdx (v : Int) : List (Int × Nat) → List (Int × Nat)
  | [] => [(v, 1)]
  | (k, c) :: t =>
    if v < k then (v, 1) :: (k, c) :: t
    else if v = k then (k, c + 1) :: t
    else (k, c) :: insertIdx v t

/-- `erase_one_index1` / `erase_one_index2`: decrement the count at `v`,
dropping the entry when it reaches zero; no-op when `v` is absent. -/
def eraseOneIdx (v : Int) : List (Int × Nat) → List (Int × Nat)
  | [] => []
  | (k, c) :: t =>
    if v = k then (if c = 1 then t else (k, c - 1) :: t)
    else (k, c) :: eraseOneIdx v t

/-- `top_index1` / `top_index2`: `begin` for Min, `rbegin` for Max,
`nullopt` in Add mode or when the count-map is empty. -/
def topIdx (mode : AggMode) (l : List (Int × Nat)) : Option Int :=
  match mode with
  | .Add => none
  | .Min => l.head?.map Prod.fst
  | .Max => l.getLast?.map Prod.fst

/-- Count-map update for one mutation: erase the old extracted value (when
provided), then insert the new one (when provided) — the order used in both
branches of `apply_pair`. -/
def applyIdx (old? new? : Option Int) (idx : List (Int × Nat)) : List (Int × Nat) :=
  let idxe := match old? with
    | some v => eraseOneIdx v idx
    | none => idx
  match new? with
  | some v => insertIdx v idxe
  | none => idxe

/-- `apply_pair`: applies one mutation's deltas / extracted-value changes to
both totals, along the non-combined path (each total published
independently) or the combined-atomic path (both recomputed and published
in one `batchExecute`).  Add mode uses the default-add fast path
(`total += d`, unconditional publish). -/
def applyPair (cfg : Config) (batched : Bool) (s : Coll)
    (d1 d2 : Int) (old1 new1 old2 new2 : Option Int) : Coll :=
  if cfg.combinedAtomic then
    let idx1 := if cfg.mode1.isAdd then s.idx1 else applyIdx old1 new1 s.idx1
    let p1 : Int × Bool :=
      if cfg.mode1.isAdd then (s.total1 + d1, true)
      else
        match topIdx cfg.mode1 idx1 with
        | some v => if s.total1 = v then (s.total1, false) else (v, true)
        | none => if s.total1 = 0 then (s.total1, false) else (0, true)
    let idx2 := if cfg.mode2.isAdd then s.idx2 else applyIdx old2 new2 s.idx2
    let p2 : Int × Bool :=
      if cfg.mode2.isAdd then (s.total2 + d2, true)
      else
        match topIdx cfg.mode2 idx2 with
        | some v => if s.total2 = v then (s.total2, false) else (v, true)
        | none => if s.total2 = 0 then (s.total2, false) else (0, true)
    { s with idx1 := idx1, idx2 := idx2, total1 := p1.1, total2 := p2.1,
             notifyCycles :=
               s.notifyCycles + (if (p1.2 || p2.2) && !batched then 1 else 0) }
  else
    let s1 :=
      if cfg.mode1.isAdd then
        { s with total1 := s.total1 + d1,
                 notifyCycles := s.notifyCycles + (if batched then 0 else 1) }
      else
        let idx := applyIdx old1 new1 s.idx1
        { s with idx1 := idx, total1 := (topIdx cfg.mode1 idx).getD 0,
                 notifyCycles := s.notifyCycles + (if batched then 0 else 1) }
    if cfg.mode2.isAdd then
      { s1 with total2 := s1.total2 + d2,
                notifyCycles := s1.notifyCycles + (if batched then 0 else 1) }
    else
      let idx := applyIdx old2 new2 s1.idx2
      { s1 with idx2 := idx, total2 := (topIdx cfg.mode2 idx).getD 0,
                notifyCycles := s1.notifyCycles + (if batched then 0 else 1) }

/-- `IdComparator`: strict order on ids that resolves current element
snapshots through the store at comparison time, falls back to `a < b` when
a record is missing, and tie-breaks equivalent tuples by id. -/
def idLt (s : Coll) (a b : Nat) : Bool :=
  if a = b then false
  else
    match alookup a s.elems, alookup b s.elems with
    | some ra, some rb =>
      if s.cmp ra.lastElem1 ra.lastElem2 rb.lastElem1 rb.lastElem2 then true
      else if s.cmp rb.lastElem1 rb.lastElem2 ra.lastElem1 ra.lastElem2 then false
      else decide (a < b)
    | _, _ => decide (a < b)

/-- `std::set::insert` on the id list kept in `IdComparator` order. -/
def orderedInsert (lt : Nat → Nat → Bool) (x : Nat) : List Nat → List Nat
  | [] => [x]
  | y :: t => if lt x y then x :: y :: t else y :: orderedInsert lt x t

/-- `push_one`: allocate the next id, build the record, insert into the
element store, bump `elem_count_`, register the key (insert-if-absent, TBB
semantics), insert into the ordered index, then feed the initial
delta/extracted value (vs. the zero element) through `apply_pair`. -/
def pushOne (cfg : Config) (batched : Bool) (s : Coll)
    (e1 e2 : Int) (key : Option Int) : Nat × Coll :=
  let id := s.nextId
  let r : Rec := { lastElem1 := e1, lastElem2 := e2, key := key }
  let s := { s with nextId := id + 1, elems := s.elems ++ [(id, r)],
                    elemCount := s.elemCount + 1 }
  let s :=
    match key with
    | some k =>
      match alookup k s.keyIndex with
      | none => { s with keyIndex := s.keyIndex ++ [(k, id)] }
      | some _ => s
    | none => s
  let s :=
    if cfg.maintainOrdered then
      { s with orderedIndex := orderedInsert (idLt s) id s.orderedIndex }
    else s
  let d1 := cfg.delta1 e1 e2 0 0
  let d2 := cfg.delta2 e1 e2 0 0
  let n1 := if cfg.mode1.isAdd then none else some (cfg.extract1 e1 e2)
  let n2 := if cfg.mode2.isAdd then none else some (cfg.extract2 e1 e2)
  (id, applyPair cfg batched s d1 d2 none n1 none n2)

/-- Replace the record's snapshot fields at `id` (monitor step 4). -/
def updateElem (id : Nat) (ne1 ne2 : Int) : List (Nat × Rec) → List (Nat × Rec)
  | [] => []
  | p :: t =>
    if p.1 = id then (p.1, { p.2 with lastElem1 := ne1, lastElem2 := ne2 }) :: t
    else p :: updateElem id ne1 ne2 t

/-- The `ChangeMonitor` body (the `reaction::action` lambda in `push_one`):
on a field mutation of a live element, decide comparator equivalence on
the old/new tuples, compute deltas and extracted values, write the new
snapshot, erase+reinsert in the ordered index only when not equivalent,
then feed `apply_pair`.  A mutation of a dead id is a no-op (the monitor's
early return). -/
def mutateOp (cfg : Config) (s : Coll) (id : Nat) (ne1 ne2 : Int) : Coll :=
  match alookup id s.elems with
  | none => s
  | some r =>
    let old1 := r.lastElem1
    let old2 := r.lastElem2
    let needReinsert :=
      if cfg.maintainOrdered then
        !(!s.cmp old1 old2 ne1 ne2 && !s.cmp ne1 ne2 old1 old2)
      else true
    let dd1 := cfg.delta1 ne1 ne2 old1 old2
    let dd2 := cfg.delta2 ne1 ne2 old1 old2
    let o1 := if cfg.mode1.isAdd then none else some (cfg.extract1 old1 old2)
    let n1 := if cfg.mode1.isAdd then none else some (cfg.extract1 ne1 ne2)
    let o2 := if cfg.mode2.isAdd then none else some (cfg.extract2 old1 old2)
    let n2 := if cfg.mode2.isAdd then none else some (cfg.extract2 ne1 ne2)
    let s := { s with elems := updateElem id ne1 ne2 s.elems }
    let s :=
      if cfg.maintainOrdered && needReinsert then
        { s with orderedIndex :=
                   orderedInsert (idLt s) id (s.orderedIndex.filter (fun y => y ≠ id)) }
      else s
    applyPair cfg false s dd1 dd2 o1 n1 o2 n2

/-- `erase(id)`: no-op on an absent id; otherwise capture the snapshot and
key, remove from the ordered index, apply the removal delta / extracted
value via `apply_pair`, remove the key entry, remove the record and
decrement `elem_count_`. -/
def eraseOp (cfg : Config) (s : Coll) (id : Nat) : Coll :=
  match alookup id s.elems with
  | none => s
  | some r =>
    let o1 := if cfg.mode1.isAdd then none
              else some (cfg.extract1 r.lastElem1 r.lastElem2)
    let o2 := if cfg.mode2.isAdd then none
              else some (cfg.extract2 r.lastElem1 r.lastElem2)
    let rem1 := cfg.delta1 0 0 r.lastElem1 r.lastElem2
    let rem2 := cfg.delta2 0 0 r.lastElem1 r.lastElem2
    let s :=
      if cfg.maintainOrdered then
        { s with orderedIndex := s.orderedIndex.filter (fun y => y ≠ id) }
      else s
    let s := applyPair cfg false s rem1 rem2 o1 none o2 none
    let s :=
      match r.key with
      | some k => { s with keyIndex := s.keyIndex.filter (fun p => p.1 ≠ k) }
      | none => s
    { s with elems := s.elems.filter (fun p => p.1 ≠ id),
             elemCount := s.elemCount - 1 }

/-- `erase_by_key`: resolve the key through the key index, then `erase`. -/
def eraseByKeyOp (cfg : Config) (s : Coll) (k : Int) : Coll :=
  match alookup k s.keyIndex with
  | some id => eraseOp cfg s id
  | none => s

/-- In-order rebuild of the ordered index from the element store
(the loop bodies of `set_compare` / `rebuild_ordered_index`). -/
def rebuildIndex (s : Coll) : List Nat :=
  (s.elems.map Prod.fst).foldl (fun acc i => orderedInsert (idLt s) i acc) []

/-- `set_compare`: store the new comparator, then rebuild the ordered index
under it. -/
def setCompareOp (cfg : Config) (s : Coll)
    (c : Int → Int → Int → Int → Bool) : Coll :=
  let s := { s with cmp := c }
  if cfg.maintainOrdered then { s with orderedIndex := rebuildIndex s } else s

/-- `rebuild_ordered_index`: rebuild under the current comparator. -/
def rebuildOp (cfg : Config) (s : Coll) : Coll :=
  if cfg.maintainOrdered then { s with orderedIndex := rebuildIndex s } else s

/-- Batch `push_back` over a vector of pairs: early-out on an empty vector,
otherwise push each pair (keyless) inside one `reaction::batchExecute`,
which yields a single downstream notification cycle for the whole batch. -/
def batchPushOp (cfg : Config) (s : Coll) (vals : List (Int × Int)) : Coll :=
  match vals with
  | [] => s
  | _ =>
    let t := vals.foldl (fun t p => (pushOne cfg true t p.1 p.2 none).2) s
    { t with notifyCycles := t.notifyCycles + 1 }

/-- One client operation on the collection. -/
inductive Op where
  | push (e1 e2 : Int) (key : Option Int) : Op
  | mutate (id : Nat) (ne1 ne2 : Int) : Op
  | eraseId (id : Nat) : Op
  | eraseKey (k : Int) : Op
  | setCmp (c : Int → Int → Int → Int → Bool) : Op
  | rebuild : Op
  | batchPush (vals : List (Int × Int)) : Op

/-- Apply one operation. -/
def step (cfg : Config) (s : Coll) : Op → Coll
  | .push e1 e2 key => (pushOne cfg false s e1 e2 key).2
  | .mutate id a b => mutateOp cfg s id a b
  | .eraseId id => eraseOp cfg s id
  | .eraseKey k => eraseByKeyOp cfg s k
  | .setCmp c => setCompareOp cfg s c
  | .rebuild => rebuildOp cfg s
  | .batchPush vals => batchPushOp cfg s vals

/-- Apply a sequence of operations. -/
def run (cfg : Config) (ops : List Op) (s : Coll) : Coll :=
  ops.foldl (step cfg) s

/-- `find_by_key`: lock-free lookup in the key index. -/
def findByKey (s : Coll) (k : Int) : Option Nat :=
  alookup k s.keyIndex

/-- `elem1Var(id)`: the element's first cell, or `std::out_of_range`. -/
def elem1VarGet (s : Coll) (id : Nat) : Except String Int :=
  match alookup id s.elems with
  | some r => .ok r.lastElem1
  | none => .error "elem1Var: id not found"

/-- `elem2Var(id)`: the element's second cell, or `std::out_of_range`. -/
def elem2VarGet (s : Coll) (id : Nat) : Except String Int :=
  match alookup id s.elems with
  | some r => .ok r.lastElem2
  | none => .error "elem2Var: id not found"

/-- `size()`: the atomic live-element counter. -/
def collSize (s : Coll) : Nat := s.elemCount

/-- `bottom_k(k)`: up to `k` ids from the low end of the order. -/
def bottomK (s : Coll) (k : Nat) : List Nat := s.orderedIndex.take k

/-- `top_k(k)`: up to `k` ids from the high end of the order. -/
def topK (s : Coll) (k : Nat) : List Nat := s.orderedIndex.reverse.take k

/-- The default configuration used by Scenario A / D: both totals in Add
mode with the default delta functors, independent publication, no ordered
index. -/
def addCfg : Config :=
  { mode1 := .Add, mode2 := .Add,
    delta1 := defaultDelta1, delta2 := defaultDelta2,
    extract1 := defaultExtract1, extract2 := defaultExtract2,
    compare := defaultCompare, combinedAtomic := false,
    maintainOrdered := false }

/-- Configuration with `total1` in mode `m` (Min/Max claims), default
extractor (`elem2`), selectable publication mode. -/
def minMaxCfg (m : AggMode) (c : Bool) : Config :=
  { addCfg with mode1 := m, combinedAtomic := c }

/-- Configuration with the ordered index enabled and the default
lexicographic comparator (Scenario C). -/
def ordCfg : Config :=
  { addCfg with maintainOrdered := true }

/-- Multiset denoted by a count-map: each entry `(v, c)` contributes `c`
copies of `v`. -/
def toMulti (l : List (Int × Nat)) : Multiset Int :=
  (l.flatMap (fun p => List.replicate p.2 p.1) : List Int)

/-- The extracted values (for `total1`) of all live elements. -/
def liveExt1 (cfg : Config) (s : Coll) : List Int :=
  s.elems.map (fun p => cfg.extract1 p.2.lastElem1 p.2.lastElem2)

/-- Sum of every live element's `lastElem2`. -/
def sumElem2 (l : List (Nat × Rec)) : Int :=
  (l.map (fun p => p.2.lastElem2)).sum

/-- Minimum of a list of values. -/
def minList : List Int → Option Int
  | [] => none
  | x :: t =>
    match minList t with
    | none => some x
    | some m => some (min x m)

/-- Maximum of a list of values. -/
def maxList : List Int → Option Int
  | [] => none
  | x :: t =>
    match maxList t with
    | none => some x
    | some m => some (max x m)

/-- Key-sortedness of a count-map (`std::map` invariant). -/
def IdxSorted (l : List (Int × Nat)) : Prop :=
  l.Pairwise (fun a b => a.1 < b.1)

/-- All counts of a count-map are positive. -/
def IdxPos (l : List (Int × Nat)) : Prop :=
  ∀ p ∈ l, 0 < p.2

/-- Structural invariant of a quiescent collection: unique live ids below
the id counter, the live counter agrees with the store, the count-maps are
well-formed and denote the multiset of live extracted values, the
published non-Add total is the count-map's extreme (or zero), the ordered
index holds exactly the live ids, and every key-index entry points at a
live element carrying that key. -/
structure Inv (cfg : Config) (s : Coll) : Prop where
  mapNodup : (s.elems.map Prod.fst).Nodup
  fresh : ∀ i ∈ s.elems.map Prod.fst, i < s.nextId
  countEq : s.elemCount = s.elems.length
  idx1Sorted : IdxSorted s.idx1
  idx1Pos : IdxPos s.idx1
  idx1Multi : cfg.mode1.isAdd = false → toMulti s.idx1 = (liveExt1 cfg s : Multiset Int)
  total1Pub : cfg.mode1.isAdd = false → s.total1 = (topIdx cfg.mode1 s.idx1).getD 0
  ordMem : cfg.maintainOrdered = true →
    s.orderedIndex.Nodup ∧ ∀ z, z ∈ s.orderedIndex ↔ z ∈ s.elems.map Prod.fst
  keyLive : ∀ p ∈ s.keyIndex, ∃ r, alookup p.2 s.elems = some r ∧ r.key = some p.1

/-- Key-index bijection: an entry `(k, id)` exists iff `id` is live with
key `k` (holds when no `push_back` reuses a live key). -/
def KB (s : Coll) : Prop :=
  ∀ k id, alookup k s.keyIndex = some id ↔
    ∃ r, alookup id s.elems = some r ∧ r.key = some k

/-- One operation respects key freshness: a keyed push never reuses the key
of a currently-live element. -/
def goodStep (s : Coll) : Op → Bool
  | .push _ _ (some k) => s.elems.all (fun p => decide (p.2.key ≠ some k))
  | _ => true

/-- A whole operation sequence respects key freshness from state `s` on. -/
def goodKeysB (cfg : Config) : Coll → List Op → Bool
  | _, [] => true
  | s, op :: t => goodStep s op && goodKeysB cfg (step cfg s op) t

/-- Equality of every observable collection component except the
notification-cycle count. -/
def EqMod (a b : Coll) : Prop :=
  a.elems = b.elems ∧ a.keyIndex = b.keyIndex ∧ a.orderedIndex = b.orderedIndex ∧
  a.idx1 = b.idx1 ∧ a.idx2 = b.idx2 ∧ a.total1 = b.total1 ∧ a.total2 = b.total2 ∧
  a.cmp = b.cmp ∧ a.nextId = b.nextId ∧ a.elemCount = b.elemCount

example :
    (run addCfg [Op.push 1 10 none, Op.push 2 5 none, Op.push 3 20 none]
      (initColl addCfg)).total1 = 35 := by decide

example :
    (run (minMaxCfg .Min false)
      [Op.push 1 10 none, Op.push 2 5 none, Op.push 3 20 none]
      (initColl (minMaxCfg .Min false))).total1 = 5 := by decide

example :
    (run (minMaxCfg .Min false)
      [Op.push 1 10 none, Op.push 2 5 none, Op.push 3 20 none, Op.eraseId 2]
      (initColl (minMaxCfg .Min false))).total1 = 10 := by decide

example :
    bottomK (run ordCfg [Op.push 1 5 none, Op.push 2 3 none, Op.push 3 9 none]
      (initColl ordCfg)) 1 = [1] := by decide

example :
    bottomK (run ordCfg [Op.push 1 5 none, Op.push 2 3 none, Op.push 3 9 none,
        Op.mutate 2 2 20] (initColl ordCfg)) 1 = [1] := by decide

example :
    findByKey (run addCfg [Op.push 0 0 (some 1), Op.push 0 0 (some 1)]
      (initColl addCfg)) 1 = some 1 := by decide

example :
    findByKey (run addCfg
      [Op.push 0 0 (some 1), Op.push 0 0 (some 1), Op.eraseId 1]
      (initColl addCfg)) 1 = none := by decide

/-! ## Association-list lemmas -/

theorem alookup_eq_none_iff {α β : Type} [DecidableEq α] (k : α) :
    ∀ l : List (α × β), alookup k l = none ↔ ∀ p ∈ l, p.1 ≠ k := by
  intro l
  induction l with
  | nil => simp [alookup]
  | cons p t ih =>
    by_cases h : p.1 = k
    · simp [alookup, h]
    · simp [alookup, h, ih]

theorem alookup_mem {α β : Type} [DecidableEq α] {k : α} {r : β} :
    ∀ {l : List (α × β)}, alookup k l = some r → (k, r) ∈ l := by
  intro l
  induction l with
  | nil => simp [alookup]
  | cons p t ih =>
    intro hs
    by_cases h : p.1 = k
    · simp [alookup, h] at hs
      rcases p with ⟨p1, p2⟩
      simp at h hs
      simp [h, hs]
    · simp [alookup, h] at hs
      exact List.mem_cons_of_mem _ (ih hs)

theorem alookup_append_left {α β : Type} [DecidableEq α] {k : α} {r : β}
    {l1 : List (α × β)} (l2 : List (α × β)) (h : alookup k l1 = some r) :
    alookup k (l1 ++ l2) = some r := by
  induction l1 with
  | nil => simp [alookup] at h
  | cons p t ih =>
    by_cases hp : p.1 = k
    · simp [alookup, hp] at h ⊢
      exact h
    · simp [alookup, hp] at h ⊢
      exact ih h

theorem alookup_append_right {α β : Type} [DecidableEq α] {k : α}
    {l1 : List (α × β)} (l2 : List (α × β)) (h : alookup k l1 = none) :
    alookup k (l1 ++ l2) = alookup k l2 := by
  induction l1 with
  | nil => simp
  | cons p t ih =>
    by_cases hp : p.1 = k
    · simp [alookup, hp] at h
    · simp [alookup, hp] at h ⊢
      exact ih h

theorem alookup_filter_self {α β : Type} [DecidableEq α] (k : α) :
    ∀ l : List (α × β), alookup k (l.filter (fun p => p.1 ≠ k)) = none := by
  intro l
  rw [alookup_eq_none_iff]
  intro p hp
  simp [List.mem_filter] at hp
  exact hp.2

theorem alookup_filter_ne {α β : Type} [DecidableEq α] {k j : α}
    (hjk : j ≠ k) :
    ∀ l : List (α × β),
      alookup j (l.filter (fun p => p.1 ≠ k)) = alookup j l := by
  intro l
  induction l with
  | nil => simp
  | cons p t ih =>
    by_cases hpk : p.1 = k
    · have hpj : p.1 ≠ j := by rw [hpk]; exact fun h => hjk h.symm
      simp_all [List.filter_cons, alookup, Ne.symm hjk]
    · by_cases hpj : p.1 = j
      · simp_all [List.filter_cons, alookup, hjk]
      · simp_all [List.filter_cons, alookup]

theorem alookup_updateElem (id j : Nat) (a b : Int) :
    ∀ l : List (Nat × Rec),
      alookup j (updateElem id a b l)
        = (alookup j l).map
            (fun r => if j = id then { r with lastElem1 := a, lastElem2 := b } else r) := by
  intro l
  induction l with
  | nil => simp [updateElem, alookup]
  | cons p t ih =>
    by_cases hp : p.1 = id
    · by_cases hj : p.1 = j
      · have hji : j = id := by rw [← hj, hp]
        simp_all [updateElem, alookup]
      · have hji : j ≠ id := by rw [← hp]; exact fun h => hj h.symm
        simp_all [updateElem, alookup, Ne.symm hji]
    · by_cases hj : p.1 = j
      · have hji : j ≠ id := by rw [← hj]; exact fun h => hp h
        simp_all [updateElem, alookup]
      · simp_all [updateElem, alookup]

theorem updateElem_map_fst (id : Nat) (a b : Int) :
    ∀ l : List (Nat × Rec),
      (updateElem id a b l).map Prod.fst = l.map Prod.fst := by
  intro l
  induction l with
  | nil => rfl
  | cons p t ih =>
    by_cases hp : p.1 = id
    · simp [updateElem, hp]
    · simp [updateElem, hp, ih]

theorem updateElem_length (id : Nat) (a b : Int) :
    ∀ l : List (Nat × Rec), (updateElem id a b l).length = l.length := by
  intro l
  induction l with
  | nil => rfl
  | cons p t ih =>
    by_cases hp : p.1 = id
    · simp [updateElem, hp]
    · simp [updateElem, hp, ih]

theorem updateElem_filter (id : Nat) (a b : Int) :
    ∀ l : List (Nat × Rec),
      (updateElem id a b l).filter (fun p => p.1 ≠ id)
        = l.filter (fun p => p.1 ≠ id) := by
  intro l
  induction l with
  | nil => rfl
  | cons p t ih =>
    by_cases hp : p.1 = id
    · simp_all [updateElem, List.filter_cons]
    · simp_all [updateElem, List.filter_cons]

theorem filter_map_fst (id : Nat) :
    ∀ l : List (Nat × Rec),
      (l.filter (fun p => p.1 ≠ id)).map Prod.fst
        = (l.map Prod.fst).filter (fun y => y ≠ id) := by
  intro l
  induction l with
  | nil => rfl
  | cons p t ih =>
    by_cases hp : p.1 = id
    · simp_all [List.filter_cons]
    · simp_all [List.filter_cons]

theorem filter_eq_self_of_nodup {l : List (Nat × Rec)} {id : Nat}
    (h : id ∉ l.map Prod.fst) :
    l.filter (fun p => p.1 ≠ id) = l := by
  induction l with
  | nil => rfl
  | cons p t ih =>
    rw [List.map_cons, List.mem_cons] at h
    push_neg at h
    rw [@List.filter_cons_of_pos _ (fun q => decide (q.1 ≠ id)) p t
      (decide_eq_true (Ne.symm h.1)), ih h.2]

/-- A live element decomposes the store, up to permutation, into itself and
the rest. -/
theorem perm_decomp {l : List (Nat × Rec)} {id : Nat} {r : Rec}
    (hn : (l.map Prod.fst).Nodup) (h : alookup id l = some r) :
    l.Perm ((id, r) :: l.filter (fun p => p.1 ≠ id)) := by
  induction l with
  | nil => simp [alookup] at h
  | cons p t ih =>
    rw [List.map_cons, List.nodup_cons] at hn
    by_cases hp : p.1 = id
    · simp [alookup, hp] at h
      have hid : id ∉ t.map Prod.fst := hp ▸ hn.1
      have hself : t.filter (fun q => q.1 ≠ id) = t := filter_eq_self_of_nodup hid
      have hpr : p = (id, r) := by
        rcases p with ⟨p1, p2⟩
        simp at hp h
        simp [hp, h]
      rw [hpr, @List.filter_cons_of_neg _ (fun q => decide (q.1 ≠ id)) (id, r) t
        (by simp), hself]
    · simp [alookup, hp] at h
      have ihp := ih hn.2 h
      have hne : p.1 ≠ id := hp
      rw [@List.filter_cons_of_pos _ (fun q => decide (q.1 ≠ id)) p t
        (decide_eq_true hne)]
      exact (List.Perm.cons p ihp).trans (List.Perm.swap (id, r) p _)

/-! ## Count-map lemmas -/

theorem toMulti_nil : toMulti [] = 0 := rfl

theorem toMulti_cons (p : Int × Nat) (t : List (Int × Nat)) :
    toMulti (p :: t) = Multiset.replicate p.2 p.1 + toMulti t := by
  show ((List.replicate p.2 p.1 ++ t.flatMap (fun q => List.replicate q.2 q.1) : List Int)
      : Multiset Int) = _
  rw [← Multiset.coe_add, Multiset.coe_replicate]
  rfl

theorem toMulti_insertIdx (v : Int) :
    ∀ l : List (Int × Nat), toMulti (insertIdx v l) = v ::ₘ toMulti l := by
  intro l
  induction l with
  | nil =>
    show toMulti [(v, 1)] = v ::ₘ toMulti []
    rw [toMulti_cons, toMulti_nil]
    simp
  | cons p t ih =>
    rcases p with ⟨k, c⟩
    by_cases h1 : v < k
    · rw [insertIdx, if_pos h1, toMulti_cons, toMulti_cons]
      simp [Multiset.cons_add]
    · by_cases h2 : v = k
      · rw [insertIdx, if_neg h1, if_pos h2, toMulti_cons, toMulti_cons]
        subst h2
        simp [Multiset.replicate_succ, Multiset.cons_add]
      · rw [insertIdx, if_neg h1, if_neg h2, toMulti_cons, toMulti_cons, ih]
        rw [Multiset.add_cons]

theorem toMulti_eraseOneIdx (v : Int) :
    ∀ l : List (Int × Nat), IdxPos l →
      toMulti (eraseOneIdx v l) = (toMulti l).erase v := by
  intro l
  induction l with
  | nil => intro _; simp [eraseOneIdx, toMulti_nil]
  | cons p t ih =>
    intro hpos
    rcases p with ⟨k, c⟩
    have hc : 0 < c := hpos (k, c) (List.mem_cons_self _ _)
    have hpt : IdxPos t := fun q hq => hpos q (List.mem_cons_of_mem _ hq)
    by_cases h1 : v = k
    · subst h1
      have hmem : v ∈ Multiset.replicate c v := by
        rw [Multiset.mem_replicate]
        exact ⟨Nat.pos_iff_ne_zero.mp hc, rfl⟩
      rw [toMulti_cons, Multiset.erase_add_left_pos _ hmem]
      by_cases h2 : c = 1
      · rw [eraseOneIdx, if_pos rfl, if_pos h2, h2]
        simp
      · rw [eraseOneIdx, if_pos rfl, if_neg h2, toMulti_cons]
        have : (Multiset.replicate c v).erase v = Multiset.replicate (c - 1) v := by
          rcases Nat.exists_eq_succ_of_ne_zero (Nat.pos_iff_ne_zero.mp hc) with ⟨m, hm⟩
          subst hm
          rw [Multiset.replicate_succ, Multiset.erase_cons_head]
          simp
        rw [this]
    · have hnm : v ∉ Multiset.replicate c k := by
        rw [Multiset.mem_replicate]
        exact fun hh => h1 hh.2
      rw [eraseOneIdx, if_neg h1, toMulti_cons, toMulti_cons, ih hpt,
        Multiset.erase_add_right_neg _ hnm]

theorem mem_toMulti_key {l : List (Int × Nat)} (hpos : IdxPos l) {x : Int} :
    x ∈ toMulti l ↔ ∃ p ∈ l, p.1 = x := by
  induction l with
  | nil => simp [toMulti_nil]
  | cons p t ih =>
    have hc : 0 < p.2 := hpos p (List.mem_cons_self _ _)
    have hpt : IdxPos t := fun q hq => hpos q (List.mem_cons_of_mem _ hq)
    rw [toMulti_cons, Multiset.mem_add, Multiset.mem_replicate, ih hpt]
    constructor
    · rintro (⟨_, hx⟩ | ⟨q, hq, hx⟩)
      · exact ⟨p, List.mem_cons_self _ _, hx.symm⟩
      · exact ⟨q, List.mem_cons_of_mem _ hq, hx⟩
    · rintro ⟨q, hq, hx⟩
      rcases List.mem_cons.mp hq with hq | hq
      · exact Or.inl ⟨Nat.pos_iff_ne_zero.mp hc, by rw [hq] at hx; exact hx.symm⟩
      · exact Or.inr ⟨q, hq, hx⟩

theorem insertIdx_sorted (v : Int) :
    ∀ l : List (Int × Nat), IdxSorted l → IdxSorted (insertIdx v l) := by
  intro l
  induction l with
  | nil => intro _; simp [insertIdx, IdxSorted]
  | cons p t ih =>
    intro hs
    rcases p with ⟨k, c⟩
    rw [IdxSorted, List.pairwise_cons] at hs
    by_cases h1 : v < k
    · rw [insertIdx, if_pos h1, IdxSorted, List.pairwise_cons]
      refine ⟨?_, ?_⟩
      · rintro q hq
        rcases List.mem_cons.mp hq with hq | hq
        · rw [hq]; exact h1
        · exact lt_trans h1 (hs.1 q hq)
      · rw [IdxSorted, List.pairwise_cons] at *
        exact ⟨hs.1, hs.2⟩
    · by_cases h2 : v = k
      · rw [insertIdx, if_neg h1, if_pos h2, IdxSorted, List.pairwise_cons]
        exact ⟨hs.1, hs.2⟩
      · rw [insertIdx, if_neg h1, if_neg h2, IdxSorted, List.pairwise_cons]
        have hkv : k < v := by
          rcases lt_trichotomy v k with h | h | h
          · exact absurd h h1
          · exact absurd h h2
          · exact h
        refine ⟨?_, ih hs.2⟩
        intro q hq
        have : q = (v, 1) ∨ q.1 = v ∨ q ∈ t := by
          clear ih hs
          induction t with
          | nil =>
            simp [insertIdx] at hq
            left
            rcases q with ⟨q1, q2⟩
            simp at hq
            simp [hq]
          | cons w u ihh =>
            rcases w with ⟨w1, w2⟩
            by_cases g1 : v < w1
            · rw [insertIdx, if_pos g1] at hq
              rcases List.mem_cons.mp hq with hq | hq
              · left; exact hq
              · right; right; exact hq
            · by_cases g2 : v = w1
              · rw [insertIdx, if_neg g1, if_pos g2] at hq
                rcases List.mem_cons.mp hq with hq | hq
                · right; left; rw [hq, ← g2]
                · right; right; exact List.mem_cons_of_mem _ hq
              · rw [insertIdx, if_neg g1, if_neg g2] at hq
                rcases List.mem_cons.mp hq with hq | hq
                · right; right; rw [hq]; exact List.mem_cons_self _ _
                · rcases ihh hq with hh | hh | hh
                  · left; exact hh
                  · right; left; exact hh
                  · right; right; exact List.mem_cons_of_mem _ hh
        rcases this with hh | hh | hh
        · rw [hh]; exact hkv
        · rw [hh]; exact hkv
        · exact hs.1 q hh

theorem eraseOneIdx_sorted (v : Int) :
    ∀ l : List (Int × Nat), IdxSorted l → IdxSorted (eraseOneIdx v l) := by
  intro l
  induction l with
  | nil => intro _; simp [eraseOneIdx, IdxSorted]
  | cons p t ih =>
    intro hs
    rcases p with ⟨k, c⟩
    rw [IdxSorted, List.pairwise_cons] at hs
    by_cases h1 : v = k
    · by_cases h2 : c = 1
      · rw [eraseOneIdx, if_pos h1, if_pos h2]
        exact hs.2
      · rw [eraseOneIdx, if_pos h1, if_neg h2, IdxSorted, List.pairwise_cons]
        exact ⟨hs.1, hs.2⟩
    · rw [eraseOneIdx, if_neg h1, IdxSorted, List.pairwise_cons]
      refine ⟨?_, ih hs.2⟩
      intro q hq
      have hsub : ∃ w ∈ t, q.1 = w.1 := by
        clear ih hs
        induction t with
        | nil => simp [eraseOneIdx] at hq
        | cons w u ihh =>
          rcases w with ⟨w1, w2⟩
          by_cases g1 : v = w1
          · by_cases g2 : w2 = 1
            · rw [eraseOneIdx, if_pos g1, if_pos g2] at hq
              exact ⟨q, List.mem_cons_of_mem _ hq, rfl⟩
            · rw [eraseOneIdx, if_pos g1, if_neg g2] at hq
              rcases List.mem_cons.mp hq with hq | hq
              · exact ⟨(w1, w2), List.mem_cons_self _ _, by rw [hq]⟩
              · exact ⟨q, List.mem_cons_of_mem _ hq, rfl⟩
          · rw [eraseOneIdx, if_neg g1] at hq
            rcases List.mem_cons.mp hq with hq | hq
            · exact ⟨(w1, w2), List.mem_cons_self _ _, by rw [hq]⟩
            · rcases ihh hq with ⟨w, hw, hqw⟩
              exact ⟨w, List.mem_cons_of_mem _ hw, hqw⟩
      rcases hsub with ⟨w, hw, hqw⟩
      have : k < w.1 := hs.1 w hw
      rw [hqw]
      exact this

theorem insertIdx_pos (v : Int) :
    ∀ l : List (Int × Nat), IdxPos l → IdxPos (insertIdx v l) := by
  intro l
  induction l with
  | nil =>
    intro _ q hq
    simp [insertIdx] at hq
    rw [hq]
    simp
  | cons p t ih =>
    intro hpos
    rcases p with ⟨k, c⟩
    have hc : 0 < c := hpos (k, c) (List.mem_cons_self _ _)
    have hpt : IdxPos t := fun q hq => hpos q (List.mem_cons_of_mem _ hq)
    by_cases h1 : v < k
    · rw [insertIdx, if_pos h1]
      intro q hq
      rcases List.mem_cons.mp hq with hq | hq
      · rw [hq]; simp
      · exact hpos q hq
    · by_cases h2 : v = k
      · rw [insertIdx, if_neg h1, if_pos h2]
        intro q hq
        rcases List.mem_cons.mp hq with hq | hq
        · rw [hq]; simp
        · exact hpt q hq
      · rw [insertIdx, if_neg h1, if_neg h2]
        intro q hq
        rcases List.mem_cons.mp hq with hq | hq
        · rw [hq]; exact hc
        · exact ih hpt q hq

theorem eraseOneIdx_pos (v : Int) :
    ∀ l : List (Int × Nat), IdxPos l → IdxPos (eraseOneIdx v l) := by
  intro l
  induction l with
  | nil => intro h; simpa [eraseOneIdx] using h
  | cons p t ih =>
    intro hpos
    rcases p with ⟨k, c⟩
    have hc : 0 < c := hpos (k, c) (List.mem_cons_self _ _)
    have hpt : IdxPos t := fun q hq => hpos q (List.mem_cons_of_mem _ hq)
    by_cases h1 : v = k
    · by_cases h2 : c = 1
      · rw [eraseOneIdx, if_pos h1, if_pos h2]
        exact hpt
      · rw [eraseOneIdx, if_pos h1, if_neg h2]
        intro q hq
        rcases List.mem_cons.mp hq with hq | hq
        · rw [hq]
          show 0 < c - 1
          omega
        · exact hpt q hq
    · rw [eraseOneIdx, if_neg h1]
      intro q hq
      rcases List.mem_cons.mp hq with hq | hq
      · rw [hq]; exact hc
      · exact ih hpt q hq

/-- In Min mode the published extreme is the least member of the count-map's
multiset. -/
theorem topIdx_min_spec {l : List (Int × Nat)} (hs : IdxSorted l)
    (hpos : IdxPos l) (hne : l ≠ []) :
    ∃ m, topIdx .Min l = some m ∧ m ∈ toMulti l ∧ ∀ x ∈ toMulti l, m ≤ x := by
  rcases l with _ | ⟨⟨k, c⟩, t⟩
  · exact absurd rfl hne
  refine ⟨k, by simp [topIdx], ?_, ?_⟩
  · rw [mem_toMulti_key hpos]
    exact ⟨(k, c), List.mem_cons_self _ _, rfl⟩
  · intro x hx
    rw [mem_toMulti_key hpos] at hx
    rcases hx with ⟨q, hq, hx⟩
    rcases List.mem_cons.mp hq with hq | hq
    · rw [← hx, hq]
    · rw [IdxSorted, List.pairwise_cons] at hs
      rw [← hx]
      exact le_of_lt (hs.1 q hq)

/-- In Max mode the published extreme is the greatest member of the
count-map's multiset. -/
theorem topIdx_max_spec :
    ∀ l : List (Int × Nat), IdxSorted l → IdxPos l → l ≠ [] →
      ∃ m, topIdx .Max l = some m ∧ m ∈ toMulti l ∧ ∀ x ∈ toMulti l, x ≤ m := by
  intro l
  induction l with
  | nil => intro _ _ h; exact absurd rfl h
  | cons p t ih =>
    intro hs hpos _
    rcases p with ⟨k, c⟩
    have hc : 0 < c := hpos (k, c) (List.mem_cons_self _ _)
    have hpt : IdxPos t := fun q hq => hpos q (List.mem_cons_of_mem _ hq)
    rw [IdxSorted, List.pairwise_cons] at hs
    rcases t with _ | ⟨w, u⟩
    · refine ⟨k, by simp [topIdx], ?_, ?_⟩
      · rw [mem_toMulti_key hpos]
        exact ⟨(k, c), List.mem_cons_self _ _, rfl⟩
      · intro x hx
        rw [mem_toMulti_key hpos] at hx
        rcases hx with ⟨q, hq, hx⟩
        simp at hq
        rw [← hx, hq]
    · rcases ih hs.2 hpt (by simp) with ⟨m, hm1, hm2, hm3⟩
      refine ⟨m, ?_, ?_, ?_⟩
      · rw [topIdx] at hm1 ⊢
        rw [List.getLast?_cons_cons]
        exact hm1
      · rw [toMulti_cons, Multiset.mem_add]
        exact Or.inr hm2
      · intro x hx
        rw [toMulti_cons, Multiset.mem_add] at hx
        rcases hx with hx | hx
        · rw [Multiset.mem_replicate] at hx
          have hkm : k ≤ m := by
            have hmk : ∃ q ∈ w :: u, q.1 = m := (mem_toMulti_key hpt).mp hm2
            rcases hmk with ⟨q, hq, hqm⟩
            rw [← hqm]
            exact le_of_lt (hs.1 q hq)
          rw [hx.2]
          exact hkm
        · exact hm3 x hx

theorem minList_spec :
    ∀ l : List Int, l ≠ [] → ∃ m, minList l = some m ∧ m ∈ l ∧ ∀ x ∈ l, m ≤ x := by
  intro l
  induction l with
  | nil => intro h; exact absurd rfl h
  | cons x t ih =>
    intro _
    rcases t with _ | ⟨y, u⟩
    · exact ⟨x, by simp [minList], by simp, by simp⟩
    · rcases ih (by simp) with ⟨m, hm1, hm2, hm3⟩
      refine ⟨min x m, ?_, ?_, ?_⟩
      · rw [minList, hm1]
      · rcases min_choice x m with h | h
        · rw [h]; exact List.mem_cons_self _ _
        · rw [h]; exact List.mem_cons_of_mem _ hm2
      · intro z hz
        rcases List.mem_cons.mp hz with hz | hz
        · rw [hz]; exact min_le_left _ _
        · exact le_trans (min_le_right _ _) (hm3 z hz)

theorem maxList_spec :
    ∀ l : List Int, l ≠ [] → ∃ m, maxList l = some m ∧ m ∈ l ∧ ∀ x ∈ l, x ≤ m := by
  intro l
  induction l with
  | nil => intro h; exact absurd rfl h
  | cons x t ih =>
    intro _
    rcases t with _ | ⟨y, u⟩
    · exact ⟨x, by simp [maxList], by simp, by simp⟩
    · rcases ih (by simp) with ⟨m, hm1, hm2, hm3⟩
      refine ⟨max x m, ?_, ?_, ?_⟩
      · rw [maxList, hm1]
      · rcases max_choice x m with h | h
        · rw [h]; exact List.mem_cons_self _ _
        · rw [h]; exact List.mem_cons_of_mem _ hm2
      · intro z hz
        rcases List.mem_cons.mp hz with hz | hz
        · rw [hz]; exact le_max_left _ _
        · exact le_trans (hm3 z hz) (le_max_right _ _)

/-! ## Ordered-index lemmas -/

theorem mem_orderedInsert (lt : Nat → Nat → Bool) (x z : Nat) :
    ∀ l : List Nat, z ∈ orderedInsert lt x l ↔ z = x ∨ z ∈ l := by
  intro l
  induction l with
  | nil => simp [orderedInsert]
  | cons y t ih =>
    by_cases h : lt x y
    · rw [orderedInsert, if_pos h]
      simp
    · rw [orderedInsert, if_neg h]
      rw [List.mem_cons, ih, List.mem_cons]
      tauto

theorem nodup_orderedInsert (lt : Nat → Nat → Bool) (x : Nat) :
    ∀ l : List Nat, x ∉ l → l.Nodup → (orderedInsert lt x l).Nodup := by
  intro l
  induction l with
  | nil => intro _ _; simp [orderedInsert]
  | cons y t ih =>
    intro hx hn
    rw [List.mem_cons] at hx
    push_neg at hx
    rw [List.nodup_cons] at hn
    by_cases h : lt x y
    · rw [orderedInsert, if_pos h, List.nodup_cons, List.nodup_cons]
      refine ⟨?_, hn⟩
      rw [List.mem_cons]
      push_neg
      exact ⟨fun he => hx.1 he, hx.2⟩
    · rw [orderedInsert, if_neg h, List.nodup_cons]
      refine ⟨?_, ih hx.2 hn.2⟩
      rw [mem_orderedInsert]
      push_neg
      exact ⟨fun he => hx.1 he.symm, hn.1⟩

theorem foldl_orderedInsert_mem (lt : Nat → Nat → Bool) :
    ∀ (ids acc : List Nat) (z : Nat),
      z ∈ ids.foldl (fun a i => orderedInsert lt i a) acc ↔ z ∈ acc ∨ z ∈ ids := by
  intro ids
  induction ids with
  | nil => simp
  | cons i t ih =>
    intro acc z
    rw [List.foldl_cons, ih, mem_orderedInsert, List.mem_cons]
    tauto

theorem foldl_orderedInsert_nodup (lt : Nat → Nat → Bool) :
    ∀ (ids acc : List Nat), ids.Nodup → acc.Nodup →
      (∀ i ∈ ids, i ∉ acc) →
      (ids.foldl (fun a i => orderedInsert lt i a) acc).Nodup := by
  intro ids
  induction ids with
  | nil => intro acc _ h _; simpa using h
  | cons i t ih =>
    intro acc hids hacc hdisj
    rw [List.nodup_cons] at hids
    rw [List.foldl_cons]
    refine ih _ hids.2 ?_ ?_
    · exact nodup_orderedInsert lt i acc (hdisj i (List.mem_cons_self _ _)) hacc
    · intro j hj
      rw [mem_orderedInsert]
      push_neg
      exact ⟨fun he => hids.1 (he ▸ hj), hdisj j (List.mem_cons_of_mem _ hj)⟩

/-! ## `apply_pair` field characterization -/

theorem applyPair_elems (cfg : Config) (b : Bool) (s : Coll)
    (d1 d2 : Int) (o1 n1 o2 n2 : Option Int) :
    (applyPair cfg b s d1 d2 o1 n1 o2 n2).elems = s.elems := by
  rw [applyPair]
  by_cases hc : cfg.combinedAtomic <;> by_cases h1 : cfg.mode1.isAdd <;>
    by_cases h2 : cfg.mode2.isAdd <;> simp [hc, h1, h2]

theorem applyPair_keyIndex (cfg : Config) (b : Bool) (s : Coll)
    (d1 d2 : Int) (o1 n1 o2 n2 : Option Int) :
    (applyPair cfg b s d1 d2 o1 n1 o2 n2).keyIndex = s.keyIndex := by
  rw [applyPair]
  by_cases hc : cfg.combinedAtomic <;> by_cases h1 : cfg.mode1.isAdd <;>
    by_cases h2 : cfg.mode2.isAdd <;> simp [hc, h1, h2]

theorem applyPair_orderedIndex (cfg : Config) (b : Bool) (s : Coll)
    (d1 d2 : Int) (o1 n1 o2 n2 : Option Int) :
    (applyPair cfg b s d1 d2 o1 n1 o2 n2).orderedIndex = s.orderedIndex := by
  rw [applyPair]
  by_cases hc : cfg.combinedAtomic <;> by_cases h1 : cfg.mode1.isAdd <;>
    by_cases h2 : cfg.mode2.isAdd <;> simp [hc, h1, h2]

theorem applyPair_nextId (cfg : Config) (b : Bool) (s : Coll)
    (d1 d2 : Int) (o1 n1 o2 n2 : Option Int) :
    (applyPair cfg b s d1 d2 o1 n1 o2 n2).nextId = s.nextId := by
  rw [applyPair]
  by_cases hc : cfg.combinedAtomic <;> by_cases h1 : cfg.mode1.isAdd <;>
    by_cases h2 : cfg.mode2.isAdd <;> simp [hc, h1, h2]

theorem applyPair_elemCount (cfg : Config) (b : Bool) (s : Coll)
    (d1 d2 : Int) (o1 n1 o2 n2 : Option Int) :
    (applyPair cfg b s d1 d2 o1 n1 o2 n2).elemCount = s.elemCount := by
  rw [applyPair]
  by_cases hc : cfg.combinedAtomic <;> by_cases h1 : cfg.mode1.isAdd <;>
    by_cases h2 : cfg.mode2.isAdd <;> simp [hc, h1, h2]

theorem applyPair_cmp (cfg : Config) (b : Bool) (s : Coll)
    (d1 d2 : Int) (o1 n1 o2 n2 : Option Int) :
    (applyPair cfg b s d1 d2 o1 n1 o2 n2).cmp = s.cmp := by
  rw [applyPair]
  by_cases hc : cfg.combinedAtomic <;> by_cases h1 : cfg.mode1.isAdd <;>
    by_cases h2 : cfg.mode2.isAdd <;> simp [hc, h1, h2]

theorem applyPair_idx1 (cfg : Config) (b : Bool) (s : Coll)
    (d1 d2 : Int) (o1 n1 o2 n2 : Option Int) :
    (applyPair cfg b s d1 d2 o1 n1 o2 n2).idx1 =
      if cfg.mode1.isAdd then s.idx1 else applyIdx o1 n1 s.idx1 := by
  rw [applyPair]
  by_cases hc : cfg.combinedAtomic <;> by_cases h1 : cfg.mode1.isAdd <;>
    by_cases h2 : cfg.mode2.isAdd <;> simp [hc, h1, h2]

theorem applyPair_idx2 (cfg : Config) (b : Bool) (s : Coll)
    (d1 d2 : Int) (o1 n1 o2 n2 : Option Int) :
    (applyPair cfg b s d1 d2 o1 n1 o2 n2).idx2 =
      if cfg.mode2.isAdd then s.idx2 else applyIdx o2 n2 s.idx2 := by
  rw [applyPair]
  by_cases hc : cfg.combinedAtomic <;> by_cases h1 : cfg.mode1.isAdd <;>
    by_cases h2 : cfg.mode2.isAdd <;> simp [hc, h1, h2]

theorem applyPair_total1 (cfg : Config) (b : Bool) (s : Coll)
    (d1 d2 : Int) (o1 n1 o2 n2 : Option Int) :
    (applyPair cfg b s d1 d2 o1 n1 o2 n2).total1 =
      if cfg.mode1.isAdd then s.total1 + d1
      else (topIdx cfg.mode1 (applyIdx o1 n1 s.idx1)).getD 0 := by
  rw [applyPair]
  by_cases hc : cfg.combinedAtomic <;> by_cases h1 : cfg.mode1.isAdd <;>
    by_cases h2 : cfg.mode2.isAdd <;> simp [hc, h1, h2]
  all_goals
    rcases htop : topIdx cfg.mode1 (applyIdx o1 n1 s.idx1) with _ | v <;>
      simp [htop] <;> split_ifs with hx <;> simp [hx]

theorem applyPair_total2 (cfg : Config) (b : Bool) (s : Coll)
    (d1 d2 : Int) (o1 n1 o2 n2 : Option Int) :
    (applyPair cfg b s d1 d2 o1 n1 o2 n2).total2 =
      if cfg.mode2.isAdd then s.total2 + d2
      else (topIdx cfg.mode2 (applyIdx o2 n2 s.idx2)).getD 0 := by
  rw [applyPair]
  by_cases hc : cfg.combinedAtomic <;> by_cases h1 : cfg.mode1.isAdd <;>
    by_cases h2 : cfg.mode2.isAdd <;> simp [hc, h1, h2]
  all_goals
    rcases htop : topIdx cfg.mode2 (applyIdx o2 n2 s.idx2) with _ | v <;>
      simp [htop] <;> split_ifs with hx <;> simp [hx]

theorem applyIdx_sorted (o? n? : Option Int) (l : List (Int × Nat))
    (h : IdxSorted l) : IdxSorted (applyIdx o? n? l) := by
  rcases o? with _ | v <;> rcases n? with _ | w <;>
    simp only [applyIdx] <;>
    first
      | exact h
      | exact insertIdx_sorted _ _ h
      | exact eraseOneIdx_sorted _ _ h
      | exact insertIdx_sorted _ _ (eraseOneIdx_sorted _ _ h)

theorem applyIdx_pos (o? n? : Option Int) (l : List (Int × Nat))
    (h : IdxPos l) : IdxPos (applyIdx o? n? l) := by
  rcases o? with _ | v <;> rcases n? with _ | w <;>
    simp only [applyIdx] <;>
    first
      | exact h
      | exact insertIdx_pos _ _ h
      | exact eraseOneIdx_pos _ _ h
      | exact insertIdx_pos _ _ (eraseOneIdx_pos _ _ h)

/-! ## `push_one` field projections -/

theorem pushOne_id (cfg : Config) (b : Bool) (s : Coll) (e1 e2 : Int)
    (key : Option Int) :
    (pushOne cfg b s e1 e2 key).1 = s.nextId := by
  simp only [pushOne]

theorem pushOne_elems (cfg : Config) (b : Bool) (s : Coll) (e1 e2 : Int)
    (key : Option Int) :
    (pushOne cfg b s e1 e2 key).2.elems
      = s.elems ++ [(s.nextId, { lastElem1 := e1, lastElem2 := e2, key := key })] := by
  simp only [pushOne, applyPair_elems]
  rcases key with _ | k
  · by_cases hmo : cfg.maintainOrdered <;> simp [hmo]
  · rcases hk : alookup k s.keyIndex with _ | i <;>
      by_cases hmo : cfg.maintainOrdered <;> simp [hk, hmo]

theorem pushOne_nextId (cfg : Config) (b : Bool) (s : Coll) (e1 e2 : Int)
    (key : Option Int) :
    (pushOne cfg b s e1 e2 key).2.nextId = s.nextId + 1 := by
  simp only [pushOne, applyPair_nextId]
  rcases key with _ | k
  · by_cases hmo : cfg.maintainOrdered <;> simp [hmo]
  · rcases hk : alookup k s.keyIndex with _ | i <;>
      by_cases hmo : cfg.maintainOrdered <;> simp [hk, hmo]

theorem pushOne_elemCount (cfg : Config) (b : Bool) (s : Coll) (e1 e2 : Int)
    (key : Option Int) :
    (pushOne cfg b s e1 e2 key).2.elemCount = s.elemCount + 1 := by
  simp only [pushOne, applyPair_elemCount]
  rcases key with _ | k
  · by_cases hmo : cfg.maintainOrdered <;> simp [hmo]
  · rcases hk : alookup k s.keyIndex with _ | i <;>
      by_cases hmo : cfg.maintainOrdered <;> simp [hk, hmo]

theorem pushOne_cmp (cfg : Config) (b : Bool) (s : Coll) (e1 e2 : Int)
    (key : Option Int) :
    (pushOne cfg b s e1 e2 key).2.cmp = s.cmp := by
  simp only [pushOne, applyPair_cmp]
  rcases key with _ | k
  · by_cases hmo : cfg.maintainOrdered <;> simp [hmo]
  · rcases hk : alookup k s.keyIndex with _ | i <;>
      by_cases hmo : cfg.maintainOrdered <;> simp [hk, hmo]

theorem pushOne_idx1 (cfg : Config) (b : Bool) (s : Coll) (e1 e2 : Int)
    (key : Option Int) :
    (pushOne cfg b s e1 e2 key).2.idx1
      = if cfg.mode1.isAdd then s.idx1
        else insertIdx (cfg.extract1 e1 e2) s.idx1 := by
  simp only [pushOne, applyPair_idx1]
  by_cases h1 : cfg.mode1.isAdd <;>
    rcases key with _ | k
  · by_cases hmo : cfg.maintainOrdered <;> simp [hmo, h1]
  · rcases hk : alookup k s.keyIndex with _ | i <;>
      by_cases hmo : cfg.maintainOrdered <;> simp [hk, hmo, h1]
  · by_cases hmo : cfg.maintainOrdered <;> simp [hmo, h1, applyIdx]
  · rcases hk : alookup k s.keyIndex with _ | i <;>
      by_cases hmo : cfg.maintainOrdered <;> simp [hk, hmo, h1, applyIdx]

theorem pushOne_idx2 (cfg : Config) (b : Bool) (s : Coll) (e1 e2 : Int)
    (key : Option Int) :
    (pushOne cfg b s e1 e2 key).2.idx2
      = if cfg.mode2.isAdd then s.idx2
        else insertIdx (cfg.extract2 e1 e2) s.idx2 := by
  simp only [pushOne, applyPair_idx2]
  by_cases h2 : cfg.mode2.isAdd <;>
    rcases key with _ | k
  · by_cases hmo : cfg.maintainOrdered <;> simp [hmo, h2]
  · rcases hk : alookup k s.keyIndex with _ | i <;>
      by_cases hmo : cfg.maintainOrdered <;> simp [hk, hmo, h2]
  · by_cases hmo : cfg.maintainOrdered <;> simp [hmo, h2, applyIdx]
  · rcases hk : alookup k s.keyIndex with _ | i <;>
      by_cases hmo : cfg.maintainOrdered <;> simp [hk, hmo, h2, applyIdx]

theorem pushOne_total1 (cfg : Config) (b : Bool) (s : Coll) (e1 e2 : Int)
    (key : Option Int) :
    (pushOne cfg b s e1 e2 key).2.total1
      = if cfg.mode1.isAdd then s.total1 + cfg.delta1 e1 e2 0 0
        else (topIdx cfg.mode1 (insertIdx (cfg.extract1 e1 e2) s.idx1)).getD 0 := by
  simp only [pushOne, applyPair_total1]
  by_cases h1 : cfg.mode1.isAdd <;>
    rcases key with _ | k
  · by_cases hmo : cfg.maintainOrdered <;> simp [hmo, h1]
  · rcases hk : alookup k s.keyIndex with _ | i <;>
      by_cases hmo : cfg.maintainOrdered <;> simp [hk, hmo, h1]
  · by_cases hmo : cfg.maintainOrdered <;> simp [hmo, h1, applyIdx]
  · rcases hk : alookup k s.keyIndex with _ | i <;>
      by_cases hmo : cfg.maintainOrdered <;> simp [hk, hmo, h1, applyIdx]

theorem pushOne_total2 (cfg : Config) (b : Bool) (s : Coll) (e1 e2 : Int)
    (key : Option Int) :
    (pushOne cfg b s e1 e2 key).2.total2
      = if cfg.mode2.isAdd then s.total2 + cfg.delta2 e1 e2 0 0
        else (topIdx cfg.mode2 (insertIdx (cfg.extract2 e1 e2) s.idx2)).getD 0 := by
  simp only [pushOne, applyPair_total2]
  by_cases h2 : cfg.mode2.isAdd <;>
    rcases key with _ | k
  · by_cases hmo : cfg.maintainOrdered <;> simp [hmo, h2]
  · rcases hk : alookup k s.keyIndex with _ | i <;>
      by_cases hmo : cfg.maintainOrdered <;> simp [hk, hmo, h2]
  · by_cases hmo : cfg.maintainOrdered <;> simp [hmo, h2, applyIdx]
  · rcases hk : alookup k s.keyIndex with _ | i <;>
      by_cases hmo : cfg.maintainOrdered <;> simp [hk, hmo, h2, applyIdx]

theorem pushOne_keyIndex_none (cfg : Config) (b : Bool) (s : Coll)
    (e1 e2 : Int) :
    (pushOne cfg b s e1 e2 none).2.keyIndex = s.keyIndex := by
  simp only [pushOne, applyPair_keyIndex]
  by_cases hmo : cfg.maintainOrdered <;> simp [hmo]

theorem pushOne_keyIndex_some (cfg : Config) (b : Bool) (s : Coll)
    (e1 e2 : Int) (k : Int) :
    (pushOne cfg b s e1 e2 (some k)).2.keyIndex
      = if alookup k s.keyIndex = none then s.keyIndex ++ [(k, s.nextId)]
        else s.keyIndex := by
  simp only [pushOne, applyPair_keyIndex]
  rcases hk : alookup k s.keyIndex with _ | i <;>
    by_cases hmo : cfg.maintainOrdered <;> simp [hk, hmo]

theorem pushOne_orderedIndex_off (cfg : Config) (b : Bool) (s : Coll)
    (e1 e2 : Int) (key : Option Int) (hmo : cfg.maintainOrdered = false) :
    (pushOne cfg b s e1 e2 key).2.orderedIndex = s.orderedIndex := by
  simp only [pushOne, applyPair_orderedIndex]
  rcases key with _ | k
  · simp [hmo]
  · rcases hk : alookup k s.keyIndex with _ | i <;> simp [hk, hmo]

theorem pushOne_orderedIndex_on (cfg : Config) (b : Bool) (s : Coll)
    (e1 e2 : Int) (key : Option Int) (hmo : cfg.maintainOrdered = true) :
    ∃ lt, (pushOne cfg b s e1 e2 key).2.orderedIndex
      = orderedInsert lt s.nextId s.orderedIndex := by
  simp only [pushOne, applyPair_orderedIndex]
  rcases key with _ | k
  · simp [hmo]
    exact ⟨_, rfl⟩
  · rcases hk : alookup k s.keyIndex with _ | i
    · simp [hk, hmo]
      exact ⟨_, rfl⟩
    · simp [hk, hmo]
      exact ⟨_, rfl⟩

/-! ## `ChangeMonitor` (mutation) field projections -/

theorem mutateOp_absent (cfg : Config) (s : Coll) (id : Nat) (ne1 ne2 : Int)
    (hr : alookup id s.elems = none) : mutateOp cfg s id ne1 ne2 = s := by
  simp only [mutateOp, hr]

theorem mutateOp_elems (cfg : Config) (s : Coll) (id : Nat) (ne1 ne2 : Int)
    (r : Rec) (hr : alookup id s.elems = some r) :
    (mutateOp cfg s id ne1 ne2).elems = updateElem id ne1 ne2 s.elems := by
  simp only [mutateOp, hr, applyPair_elems]
  split <;> split <;> rfl

theorem mutateOp_keyIndex (cfg : Config) (s : Coll) (id : Nat) (ne1 ne2 : Int)
    (r : Rec) (hr : alookup id s.elems = some r) :
    (mutateOp cfg s id ne1 ne2).keyIndex = s.keyIndex := by
  simp only [mutateOp, hr, applyPair_keyIndex]
  split <;> split <;> rfl

theorem mutateOp_nextId (cfg : Config) (s : Coll) (id : Nat) (ne1 ne2 : Int)
    (r : Rec) (hr : alookup id s.elems = some r) :
    (mutateOp cfg s id ne1 ne2).nextId = s.nextId := by
  simp only [mutateOp, hr, applyPair_nextId]
  split <;> split <;> rfl

theorem mutateOp_elemCount (cfg : Config) (s : Coll) (id : Nat) (ne1 ne2 : Int)
    (r : Rec) (hr : alookup id s.elems = some r) :
    (mutateOp cfg s id ne1 ne2).elemCount = s.elemCount := by
  simp only [mutateOp, hr, applyPair_elemCount]
  split <;> split <;> rfl

theorem mutateOp_cmp (cfg : Config) (s : Coll) (id : Nat) (ne1 ne2 : Int)
    (r : Rec) (hr : alookup id s.elems = some r) :
    (mutateOp cfg s id ne1 ne2).cmp = s.cmp := by
  simp only [mutateOp, hr, applyPair_cmp]
  split <;> split <;> rfl

theorem mutateOp_idx1 (cfg : Config) (s : Coll) (id : Nat) (ne1 ne2 : Int)
    (r : Rec) (hr : alookup id s.elems = some r) :
    (mutateOp cfg s id ne1 ne2).idx1
      = if cfg.mode1.isAdd then s.idx1
        else insertIdx (cfg.extract1 ne1 ne2)
          (eraseOneIdx (cfg.extract1 r.lastElem1 r.lastElem2) s.idx1) := by
  simp only [mutateOp, hr, applyPair_idx1]
  by_cases h1 : cfg.mode1.isAdd
  · simp only [h1, if_true]
    split <;> split <;> rfl
  · rw [Bool.not_eq_true] at h1
    simp only [h1, Bool.false_eq_true, if_false, applyIdx]
    split <;> split <;> rfl

theorem mutateOp_total1 (cfg : Config) (s : Coll) (id : Nat) (ne1 ne2 : Int)
    (r : Rec) (hr : alookup id s.elems = some r) :
    (mutateOp cfg s id ne1 ne2).total1
      = if cfg.mode1.isAdd then
          s.total1 + cfg.delta1 ne1 ne2 r.lastElem1 r.lastElem2
        else (topIdx cfg.mode1 (insertIdx (cfg.extract1 ne1 ne2)
          (eraseOneIdx (cfg.extract1 r.lastElem1 r.lastElem2) s.idx1))).getD 0 := by
  simp only [mutateOp, hr, applyPair_total1]
  by_cases h1 : cfg.mode1.isAdd
  · simp only [h1, if_true]
    split <;> split <;> rfl
  · rw [Bool.not_eq_true] at h1
    simp only [h1, Bool.false_eq_true, if_false, applyIdx]
    split <;> split <;> rfl

theorem mutateOp_idx2 (cfg : Config) (s : Coll) (id : Nat) (ne1 ne2 : Int)
    (r : Rec) (hr : alookup id s.elems = some r) :
    (mutateOp cfg s id ne1 ne2).idx2
      = if cfg.mode2.isAdd then s.idx2
        else insertIdx (cfg.extract2 ne1 ne2)
          (eraseOneIdx (cfg.extract2 r.lastElem1 r.lastElem2) s.idx2) := by
  simp only [mutateOp, hr, applyPair_idx2]
  by_cases h2 : cfg.mode2.isAdd
  · simp only [h2, if_true]
    split <;> split <;> rfl
  · rw [Bool.not_eq_true] at h2
    simp only [h2, Bool.false_eq_true, if_false, applyIdx]
    split <;> split <;> rfl

theorem mutateOp_total2 (cfg : Config) (s : Coll) (id : Nat) (ne1 ne2 : Int)
    (r : Rec) (hr : alookup id s.elems = some r) :
    (mutateOp cfg s id ne1 ne2).total2
      = if cfg.mode2.isAdd then
          s.total2 + cfg.delta2 ne1 ne2 r.lastElem1 r.lastElem2
        else (topIdx cfg.mode2 (insertIdx (cfg.extract2 ne1 ne2)
          (eraseOneIdx (cfg.extract2 r.lastElem1 r.lastElem2) s.idx2))).getD 0 := by
  simp only [mutateOp, hr, applyPair_total2]
  by_cases h2 : cfg.mode2.isAdd
  · simp only [h2, if_true]
    split <;> split <;> rfl
  · rw [Bool.not_eq_true] at h2
    simp only [h2, Bool.false_eq_true, if_false, applyIdx]
    split <;> split <;> rfl

theorem mutateOp_orderedIndex_cases (cfg : Config) (s : Coll) (id : Nat)
    (ne1 ne2 : Int) (r : Rec) (hr : alookup id s.elems = some r) :
    (mutateOp cfg s id ne1 ne2).orderedIndex = s.orderedIndex ∨
      ∃ lt, (mutateOp cfg s id ne1 ne2).orderedIndex
        = orderedInsert lt id (s.orderedIndex.filter (fun y => y ≠ id)) := by
  simp only [mutateOp, hr, applyPair_orderedIndex]
  split <;> split <;>
    first
      | (right; exact ⟨_, rfl⟩)
      | (left; rfl)

theorem mutateOp_orderedIndex_equiv (cfg : Config) (s : Coll) (id : Nat)
    (ne1 ne2 : Int) (r : Rec) (hr : alookup id s.elems = some r)
    (h1 : s.cmp r.lastElem1 r.lastElem2 ne1 ne2 = false)
    (h2 : s.cmp ne1 ne2 r.lastElem1 r.lastElem2 = false) :
    (mutateOp cfg s id ne1 ne2).orderedIndex = s.orderedIndex := by
  simp only [mutateOp, hr, applyPair_orderedIndex, h1, h2]
  by_cases hmo : cfg.maintainOrdered <;> simp [hmo]

theorem mutateOp_orderedIndex_reinsert (cfg : Config) (s : Coll) (id : Nat)
    (ne1 ne2 : Int) (r : Rec) (hr : alookup id s.elems = some r)
    (hmo : cfg.maintainOrdered = true)
    (h : s.cmp r.lastElem1 r.lastElem2 ne1 ne2 = true ∨
         s.cmp ne1 ne2 r.lastElem1 r.lastElem2 = true) :
    (mutateOp cfg s id ne1 ne2).orderedIndex
      = orderedInsert (idLt { s with elems := updateElem id ne1 ne2 s.elems })
          id (s.orderedIndex.filter (fun y => y ≠ id)) := by
  simp only [mutateOp, hr, applyPair_orderedIndex, hmo]
  rcases h with h | h <;> simp [h]

/-! ## `erase` field projections -/

theorem eraseOp_absent (cfg : Config) (s : Coll) (id : Nat)
    (hr : alookup id s.elems = none) : eraseOp cfg s id = s := by
  simp only [eraseOp, hr]

theorem eraseOp_elems (cfg : Config) (s : Coll) (id : Nat)
    (r : Rec) (hr : alookup id s.elems = some r) :
    (eraseOp cfg s id).elems = s.elems.filter (fun p => p.1 ≠ id) := by
  simp only [eraseOp, hr]
  rcases hk : r.key with _ | k <;> simp only [hk] <;> simp [applyPair_elems] <;> split <;> rfl

theorem eraseOp_nextId (cfg : Config) (s : Coll) (id : Nat)
    (r : Rec) (hr : alookup id s.elems = some r) :
    (eraseOp cfg s id).nextId = s.nextId := by
  simp only [eraseOp, hr]
  rcases hk : r.key with _ | k <;> simp only [hk] <;> simp [applyPair_nextId] <;> split <;> rfl

theorem eraseOp_elemCount (cfg : Config) (s : Coll) (id : Nat)
    (r : Rec) (hr : alookup id s.elems = some r) :
    (eraseOp cfg s id).elemCount = s.elemCount - 1 := by
  simp only [eraseOp, hr]
  rcases hk : r.key with _ | k <;> simp only [hk] <;> simp [applyPair_elemCount] <;> split <;> rfl

theorem eraseOp_cmp (cfg : Config) (s : Coll) (id : Nat)
    (r : Rec) (hr : alookup id s.elems = some r) :
    (eraseOp cfg s id).cmp = s.cmp := by
  simp only [eraseOp, hr]
  rcases hk : r.key with _ | k <;> simp only [hk] <;> simp [applyPair_cmp] <;> split <;> rfl

theorem eraseOp_keyIndex (cfg : Config) (s : Coll) (id : Nat)
    (r : Rec) (hr : alookup id s.elems = some r) :
    (eraseOp cfg s id).keyIndex
      = match r.key with
        | some k => s.keyIndex.filter (fun p => p.1 ≠ k)
        | none => s.keyIndex := by
  simp only [eraseOp, hr]
  rcases hk : r.key with _ | k <;> simp only [hk] <;> simp [applyPair_keyIndex] <;> split <;> rfl

theorem eraseOp_orderedIndex (cfg : Config) (s : Coll) (id : Nat)
    (r : Rec) (hr : alookup id s.elems = some r) :
    (eraseOp cfg s id).orderedIndex
      = if cfg.maintainOrdered then s.orderedIndex.filter (fun y => y ≠ id)
        else s.orderedIndex := by
  simp only [eraseOp, hr]
  by_cases hmo : cfg.maintainOrdered <;>
    rcases hk : r.key with _ | k <;> simp only [hk] <;> simp [applyPair_orderedIndex, hmo]

theorem eraseOp_idx1 (cfg : Config) (s : Coll) (id : Nat)
    (r : Rec) (hr : alookup id s.elems = some r) :
    (eraseOp cfg s id).idx1
      = if cfg.mode1.isAdd then s.idx1
        else eraseOneIdx (cfg.extract1 r.lastElem1 r.lastElem2) s.idx1 := by
  simp only [eraseOp, hr]
  by_cases h1 : cfg.mode1.isAdd <;>
    rcases hk : r.key with _ | k <;> simp only [hk] <;>
      simp [applyPair_idx1, h1, applyIdx] <;> split <;> rfl

theorem eraseOp_total1 (cfg : Config) (s : Coll) (id : Nat)
    (r : Rec) (hr : alookup id s.elems = some r) :
    (eraseOp cfg s id).total1
      = if cfg.mode1.isAdd then
          s.total1 + cfg.delta1 0 0 r.lastElem1 r.lastElem2
        else (topIdx cfg.mode1
          (eraseOneIdx (cfg.extract1 r.lastElem1 r.lastElem2) s.idx1)).getD 0 := by
  simp only [eraseOp, hr]
  by_cases h1 : cfg.mode1.isAdd <;>
    rcases hk : r.key with _ | k <;> simp only [hk] <;>
      simp [applyPair_total1, h1, applyIdx] <;> split <;> rfl

theorem eraseOp_idx2 (cfg : Config) (s : Coll) (id : Nat)
    (r : Rec) (hr : alookup id s.elems = some r) :
    (eraseOp cfg s id).idx2
      = if cfg.mode2.isAdd then s.idx2
        else eraseOneIdx (cfg.extract2 r.lastElem1 r.lastElem2) s.idx2 := by
  simp only [eraseOp, hr]
  by_cases h2 : cfg.mode2.isAdd <;>
    rcases hk : r.key with _ | k <;> simp only [hk] <;>
      simp [applyPair_idx2, h2, applyIdx] <;> split <;> rfl

theorem eraseOp_total2 (cfg : Config) (s : Coll) (id : Nat)
    (r : Rec) (hr : alookup id s.elems = some r) :
    (eraseOp cfg s id).total2
      = if cfg.mode2.isAdd then
          s.total2 + cfg.delta2 0 0 r.lastElem1 r.lastElem2
        else (topIdx cfg.mode2
          (eraseOneIdx (cfg.extract2 r.lastElem1 r.lastElem2) s.idx2)).getD 0 := by
  simp only [eraseOp, hr]
  by_cases h2 : cfg.mode2.isAdd <;>
    rcases hk : r.key with _ | k <;> simp only [hk] <;>
      simp [applyPair_total2, h2, applyIdx] <;> split <;> rfl

/-! ## Invariant preservation -/

theorem rebuildIndex_mem (s : Coll) (z : Nat) :
    z ∈ rebuildIndex s ↔ z ∈ s.elems.map Prod.fst := by
  rw [rebuildIndex, foldl_orderedInsert_mem]
  simp

theorem rebuildIndex_nodup (s : Coll) (h : (s.elems.map Prod.fst).Nodup) :
    (rebuildIndex s).Nodup := by
  refine foldl_orderedInsert_nodup _ _ _ h List.nodup_nil ?_
  simp

/-- The multiset of live extracted values decomposes at a live element. -/
theorem liveExt1_decomp (cfg : Config) {l : List (Nat × Rec)} {id : Nat}
    {r : Rec} (hn : (l.map Prod.fst).Nodup) (h : alookup id l = some r) :
    ((l.map (fun p => cfg.extract1 p.2.lastElem1 p.2.lastElem2)) : Multiset Int)
      = cfg.extract1 r.lastElem1 r.lastElem2 ::ₘ
        (((l.filter (fun p => p.1 ≠ id)).map
          (fun p => cfg.extract1 p.2.lastElem1 p.2.lastElem2)) : Multiset Int) := by
  have hperm := (perm_decomp hn h).map
    (fun p => cfg.extract1 p.2.lastElem1 p.2.lastElem2)
  rw [Multiset.coe_eq_coe.mpr hperm]
  rfl

theorem Inv_push (cfg : Config) (b : Bool) (s : Coll) (e1 e2 : Int)
    (key : Option Int) (h : Inv cfg s) :
    Inv cfg (pushOne cfg b s e1 e2 key).2 := by
  have hid : s.nextId ∉ s.elems.map Prod.fst :=
    fun hm => lt_irrefl _ (h.fresh _ hm)
  have hidlook : alookup s.nextId s.elems = none := by
    rw [alookup_eq_none_iff]
    intro p hp he
    exact hid (he ▸ List.mem_map_of_mem Prod.fst hp)
  constructor
  · rw [pushOne_elems, List.map_append]
    rw [List.nodup_append]
    refine ⟨h.mapNodup, by simp, ?_⟩
    intro a ha hb
    simp at hb
    exact hid (hb ▸ ha)
  · rw [pushOne_elems, pushOne_nextId, List.map_append]
    intro i hi
    rcases List.mem_append.mp hi with hi | hi
    · exact lt_trans (h.fresh i hi) (Nat.lt_succ_self _)
    · simp at hi
      rw [hi]
      exact Nat.lt_succ_self _
  · rw [pushOne_elemCount, pushOne_elems, List.length_append, h.countEq]
    simp
  · rw [pushOne_idx1]
    split
    · exact h.idx1Sorted
    · exact insertIdx_sorted _ _ h.idx1Sorted
  · rw [pushOne_idx1]
    split
    · exact h.idx1Pos
    · exact insertIdx_pos _ _ h.idx1Pos
  · intro hm1
    rw [pushOne_idx1]
    simp only [hm1, Bool.false_eq_true, if_false]
    rw [toMulti_insertIdx, h.idx1Multi hm1]
    simp only [liveExt1, pushOne_elems, List.map_append, List.map_cons,
      List.map_nil]
    rw [← Multiset.coe_add, add_comm, Multiset.coe_singleton,
      Multiset.singleton_add]
  · intro hm1
    rw [pushOne_total1, pushOne_idx1]
    simp only [hm1, Bool.false_eq_true, if_false]
  · intro hmo
    rcases pushOne_orderedIndex_on cfg b s e1 e2 key hmo with ⟨lt, hord⟩
    have old := h.ordMem hmo
    have hidord : s.nextId ∉ s.orderedIndex := fun hm => hid ((old.2 _).mp hm)
    constructor
    · rw [hord]
      exact nodup_orderedInsert _ _ _ hidord old.1
    · intro z
      rw [hord, mem_orderedInsert, old.2 z, pushOne_elems, List.map_append,
        List.mem_append]
      simp [or_comm]
  · rw [pushOne_elems]
    rcases key with _ | k
    · rw [pushOne_keyIndex_none]
      intro p hp
      rcases h.keyLive p hp with ⟨r2, hr2, hk2⟩
      exact ⟨r2, alookup_append_left _ hr2, hk2⟩
    · rw [pushOne_keyIndex_some]
      split
      · intro p hp
        rcases List.mem_append.mp hp with hp | hp
        · rcases h.keyLive p hp with ⟨r2, hr2, hk2⟩
          exact ⟨r2, alookup_append_left _ hr2, hk2⟩
        · simp at hp
          subst hp
          refine ⟨{ lastElem1 := e1, lastElem2 := e2, key := some k }, ?_, rfl⟩
          have h2 : alookup s.nextId
              (s.elems ++ [(s.nextId,
                ({ lastElem1 := e1, lastElem2 := e2, key := some k } : Rec))])
              = some { lastElem1 := e1, lastElem2 := e2, key := some k } := by
            rw [alookup_append_right _ hidlook]
            simp [alookup]
          exact h2
      · intro p hp
        rcases h.keyLive p hp with ⟨r2, hr2, hk2⟩
        exact ⟨r2, alookup_append_left _ hr2, hk2⟩

theorem Inv_mutate (cfg : Config) (s : Coll) (id : Nat) (ne1 ne2 : Int)
    (h : Inv cfg s) : Inv cfg (mutateOp cfg s id ne1 ne2) := by
  rcases hr : alookup id s.elems with _ | r
  · rw [mutateOp_absent _ _ _ _ _ hr]
    exact h
  · have hupd : alookup id (updateElem id ne1 ne2 s.elems)
        = some { r with lastElem1 := ne1, lastElem2 := ne2 } := by
      rw [alookup_updateElem]
      simp [hr]
    have hmapfst := updateElem_map_fst id ne1 ne2 s.elems
    constructor
    · rw [mutateOp_elems _ _ _ _ _ _ hr, hmapfst]
      exact h.mapNodup
    · rw [mutateOp_elems _ _ _ _ _ _ hr, mutateOp_nextId _ _ _ _ _ _ hr, hmapfst]
      exact h.fresh
    · rw [mutateOp_elemCount _ _ _ _ _ _ hr, mutateOp_elems _ _ _ _ _ _ hr,
        updateElem_length]
      exact h.countEq
    · rw [mutateOp_idx1 _ _ _ _ _ _ hr]
      split
      · exact h.idx1Sorted
      · exact insertIdx_sorted _ _ (eraseOneIdx_sorted _ _ h.idx1Sorted)
    · rw [mutateOp_idx1 _ _ _ _ _ _ hr]
      split
      · exact h.idx1Pos
      · exact insertIdx_pos _ _ (eraseOneIdx_pos _ _ h.idx1Pos)
    · intro hm1
      simp only [liveExt1]
      rw [mutateOp_idx1 _ _ _ _ _ _ hr, mutateOp_elems _ _ _ _ _ _ hr]
      simp only [hm1, Bool.false_eq_true, if_false]
      rw [toMulti_insertIdx, toMulti_eraseOneIdx _ _ h.idx1Pos, h.idx1Multi hm1]
      have hnodup2 : ((updateElem id ne1 ne2 s.elems).map Prod.fst).Nodup := by
        rw [hmapfst]
        exact h.mapNodup
      simp only [liveExt1]
      rw [liveExt1_decomp cfg h.mapNodup hr, Multiset.erase_cons_head,
        liveExt1_decomp cfg hnodup2 hupd, updateElem_filter]
    · intro hm1
      rw [mutateOp_total1 _ _ _ _ _ _ hr, mutateOp_idx1 _ _ _ _ _ _ hr]
      simp only [hm1, Bool.false_eq_true, if_false]
    · intro hmo
      have old := h.ordMem hmo
      have hidmem : id ∈ s.elems.map Prod.fst :=
        List.mem_map_of_mem Prod.fst (alookup_mem hr)
      rcases mutateOp_orderedIndex_cases cfg s id ne1 ne2 r hr with hc | ⟨lt, hc⟩
      · rw [hc, mutateOp_elems _ _ _ _ _ _ hr, hmapfst]
        exact old
      · rw [hc, mutateOp_elems _ _ _ _ _ _ hr, hmapfst]
        constructor
        · refine nodup_orderedInsert _ _ _ ?_ (old.1.filter _)
          simp [List.mem_filter]
        · intro z
          rw [mem_orderedInsert, List.mem_filter, old.2 z]
          constructor
          · rintro (hz | ⟨hz, _⟩)
            · rw [hz]
              exact hidmem
            · exact hz
          · intro hz
            by_cases hzid : z = id
            · left
              exact hzid
            · right
              exact ⟨hz, by simpa using hzid⟩
    · rw [mutateOp_keyIndex _ _ _ _ _ _ hr, mutateOp_elems _ _ _ _ _ _ hr]
      intro p hp
      rcases h.keyLive p hp with ⟨r2, hr2, hk2⟩
      refine ⟨(if p.2 = id then { r2 with lastElem1 := ne1, lastElem2 := ne2 }
        else r2), ?_, ?_⟩
      · rw [alookup_updateElem, hr2]
        simp
      · by_cases hpid : p.2 = id <;> simp [hpid, hk2]

theorem Inv_erase (cfg : Config) (s : Coll) (id : Nat) (h : Inv cfg s) :
    Inv cfg (eraseOp cfg s id) := by
  rcases hr : alookup id s.elems with _ | r
  · rw [eraseOp_absent _ _ _ hr]
    exact h
  · have hperm := perm_decomp h.mapNodup hr
    have hlen : s.elems.length = (s.elems.filter (fun p => p.1 ≠ id)).length + 1 := by
      have hl := hperm.length_eq
      simpa [Nat.add_comm] using hl
    constructor
    · rw [eraseOp_elems _ _ _ _ hr, filter_map_fst]
      exact h.mapNodup.filter _
    · rw [eraseOp_elems _ _ _ _ hr, eraseOp_nextId _ _ _ _ hr, filter_map_fst]
      intro i hi
      exact h.fresh i (List.mem_of_mem_filter hi)
    · rw [eraseOp_elemCount _ _ _ _ hr, eraseOp_elems _ _ _ _ hr, h.countEq, hlen]
      simp
    · rw [eraseOp_idx1 _ _ _ _ hr]
      split
      · exact h.idx1Sorted
      · exact eraseOneIdx_sorted _ _ h.idx1Sorted
    · rw [eraseOp_idx1 _ _ _ _ hr]
      split
      · exact h.idx1Pos
      · exact eraseOneIdx_pos _ _ h.idx1Pos
    · intro hm1
      simp only [liveExt1]
      rw [eraseOp_idx1 _ _ _ _ hr, eraseOp_elems _ _ _ _ hr]
      simp only [hm1, Bool.false_eq_true, if_false]
      rw [toMulti_eraseOneIdx _ _ h.idx1Pos, h.idx1Multi hm1]
      simp only [liveExt1]
      rw [liveExt1_decomp cfg h.mapNodup hr, Multiset.erase_cons_head]
    · intro hm1
      rw [eraseOp_total1 _ _ _ _ hr, eraseOp_idx1 _ _ _ _ hr]
      simp only [hm1, Bool.false_eq_true, if_false]
    · intro hmo
      have old := h.ordMem hmo
      rw [eraseOp_orderedIndex _ _ _ _ hr, eraseOp_elems _ _ _ _ hr]
      simp only [hmo, if_true]
      constructor
      · exact old.1.filter _
      · intro z
        rw [filter_map_fst]
        simp only [List.mem_filter, old.2 z]
    · rw [eraseOp_keyIndex _ _ _ _ hr, eraseOp_elems _ _ _ _ hr]
      rcases hk : r.key with _ | k
      · simp only [hk]
        intro p hp
        rcases h.keyLive p hp with ⟨r2, hr2, hk2⟩
        have hpid : p.2 ≠ id := by
          intro he
          rw [he, hr] at hr2
          injection hr2 with hh
          rw [← hh, hk] at hk2
          exact Option.noConfusion hk2
        refine ⟨r2, ?_, hk2⟩
        rw [alookup_filter_ne hpid]
        exact hr2
      · simp only [hk]
        intro p hp
        rw [List.mem_filter] at hp
        have hp1 : p ∈ s.keyIndex := hp.1
        have hpk : p.1 ≠ k := by simpa using hp.2
        rcases h.keyLive p hp1 with ⟨r2, hr2, hk2⟩
        have hpid : p.2 ≠ id := by
          intro he
          rw [he, hr] at hr2
          injection hr2 with hh
          rw [← hh, hk] at hk2
          injection hk2 with hkk
          exact hpk hkk.symm
        refine ⟨r2, ?_, hk2⟩
        rw [alookup_filter_ne hpid]
        exact hr2

theorem Inv_notify (cfg : Config) (s : Coll) (n : Nat) (h : Inv cfg s) :
    Inv cfg { s with notifyCycles := n } := by
  constructor
  · exact h.mapNodup
  · exact h.fresh
  · exact h.countEq
  · exact h.idx1Sorted
  · exact h.idx1Pos
  · exact h.idx1Multi
  · exact h.total1Pub
  · exact h.ordMem
  · exact h.keyLive

theorem Inv_setCompare (cfg : Config) (s : Coll)
    (c : Int → Int → Int → Int → Bool) (h : Inv cfg s) :
    Inv cfg (setCompareOp cfg s c) := by
  rw [setCompareOp]
  split
  · constructor
    · exact h.mapNodup
    · exact h.fresh
    · exact h.countEq
    · exact h.idx1Sorted
    · exact h.idx1Pos
    · exact h.idx1Multi
    · exact h.total1Pub
    · intro _
      exact ⟨rebuildIndex_nodup _ h.mapNodup, fun z => rebuildIndex_mem _ z⟩
    · exact h.keyLive
  · constructor
    · exact h.mapNodup
    · exact h.fresh
    · exact h.countEq
    · exact h.idx1Sorted
    · exact h.idx1Pos
    · exact h.idx1Multi
    · exact h.total1Pub
    · exact h.ordMem
    · exact h.keyLive

theorem Inv_rebuild (cfg : Config) (s : Coll) (h : Inv cfg s) :
    Inv cfg (rebuildOp cfg s) := by
  rw [rebuildOp]
  split
  · constructor
    · exact h.mapNodup
    · exact h.fresh
    · exact h.countEq
    · exact h.idx1Sorted
    · exact h.idx1Pos
    · exact h.idx1Multi
    · exact h.total1Pub
    · intro _
      exact ⟨rebuildIndex_nodup _ h.mapNodup, fun z => rebuildIndex_mem _ z⟩
    · exact h.keyLive
  · exact h

theorem Inv_eraseByKey (cfg : Config) (s : Coll) (k : Int) (h : Inv cfg s) :
    Inv cfg (eraseByKeyOp cfg s k) := by
  rcases hk : alookup k s.keyIndex with _ | id <;> simp only [eraseByKeyOp, hk]
  · exact h
  · exact Inv_erase _ _ _ h

theorem Inv_batchFold (cfg : Config) :
    ∀ (l : List (Int × Int)) (u : Coll), Inv cfg u →
      Inv cfg (l.foldl (fun t p => (pushOne cfg true t p.1 p.2 none).2) u) := by
  intro l
  induction l with
  | nil => intro u hu; exact hu
  | cons x xs ih =>
    intro u hu
    exact ih _ (Inv_push _ _ _ _ _ _ hu)

theorem Inv_batch (cfg : Config) (s : Coll) (vals : List (Int × Int))
    (h : Inv cfg s) : Inv cfg (batchPushOp cfg s vals) := by
  rcases vals with _ | ⟨v, t⟩
  · exact h
  · exact Inv_notify _ _ _ (Inv_batchFold cfg (v :: t) s h)

theorem Inv_step (cfg : Config) (s : Coll) (op : Op) (h : Inv cfg s) :
    Inv cfg (step cfg s op) := by
  cases op with
  | push e1 e2 key => exact Inv_push _ _ _ _ _ _ h
  | mutate id a b2 => exact Inv_mutate _ _ _ _ _ h
  | eraseId id => exact Inv_erase _ _ _ h
  | eraseKey k => exact Inv_eraseByKey _ _ _ h
  | setCmp c => exact Inv_setCompare _ _ _ h
  | rebuild => exact Inv_rebuild _ _ h
  | batchPush vals => exact Inv_batch _ _ _ h

theorem Inv_run (cfg : Config) :
    ∀ (ops : List Op) (s : Coll), Inv cfg s → Inv cfg (run cfg ops s) := by
  intro ops
  induction ops with
  | nil => intro s h; exact h
  | cons op t ih =>
    intro s h
    exact ih _ (Inv_step _ _ _ h)

theorem Inv_init (cfg : Config) : Inv cfg (initColl cfg) := by
  constructor
  · simp [initColl]
  · simp [initColl]
  · simp [initColl]
  · simp [initColl, IdxSorted]
  · simp [initColl, IdxPos]
  · intro _
    simp [initColl, toMulti, liveExt1]
  · intro _
    cases cfg.mode1 <;> simp [initColl, topIdx]
  · intro _
    simp [initColl]
  · simp [initColl]

/-! ## Add-mode conservation (default deltas) -/

theorem sumElem2_decomp {l : List (Nat × Rec)} {id : Nat} {r : Rec}
    (hn : (l.map Prod.fst).Nodup) (h : alookup id l = some r) :
    sumElem2 l = r.lastElem2 + sumElem2 (l.filter (fun p => p.1 ≠ id)) := by
  have hp := (perm_decomp hn h).map (fun p => p.2.lastElem2)
  rw [sumElem2, hp.sum_eq]
  simp [sumElem2]

theorem Cons_push (b : Bool) (s : Coll) (e1 e2 : Int) (key : Option Int)
    (hc : s.total1 = sumElem2 s.elems) :
    (pushOne addCfg b s e1 e2 key).2.total1
      = sumElem2 (pushOne addCfg b s e1 e2 key).2.elems := by
  rw [pushOne_total1, pushOne_elems, hc]
  simp [sumElem2, addCfg, AggMode.isAdd, defaultDelta1]

theorem Cons_mutate (s : Coll) (id : Nat) (ne1 ne2 : Int) (h : Inv addCfg s)
    (hc : s.total1 = sumElem2 s.elems) :
    (mutateOp addCfg s id ne1 ne2).total1
      = sumElem2 (mutateOp addCfg s id ne1 ne2).elems := by
  rcases hr : alookup id s.elems with _ | r
  · rw [mutateOp_absent _ _ _ _ _ hr]
    exact hc
  · rw [mutateOp_total1 _ _ _ _ _ _ hr, mutateOp_elems _ _ _ _ _ _ hr]
    have hupd : alookup id (updateElem id ne1 ne2 s.elems)
        = some { r with lastElem1 := ne1, lastElem2 := ne2 } := by
      rw [alookup_updateElem]
      simp [hr]
    have hn2 : ((updateElem id ne1 ne2 s.elems).map Prod.fst).Nodup := by
      rw [updateElem_map_fst]
      exact h.mapNodup
    have hd1 := sumElem2_decomp h.mapNodup hr
    have hd2 := sumElem2_decomp hn2 hupd
    rw [updateElem_filter] at hd2
    rw [hd2, hc, hd1]
    simp [addCfg, AggMode.isAdd, defaultDelta1]
    try ring

theorem Cons_erase (s : Coll) (id : Nat) (h : Inv addCfg s)
    (hc : s.total1 = sumElem2 s.elems) :
    (eraseOp addCfg s id).total1 = sumElem2 (eraseOp addCfg s id).elems := by
  rcases hr : alookup id s.elems with _ | r
  · rw [eraseOp_absent _ _ _ hr]
    exact hc
  · rw [eraseOp_total1 _ _ _ _ hr, eraseOp_elems _ _ _ _ hr]
    have hd1 := sumElem2_decomp h.mapNodup hr
    rw [hc, hd1]
    simp [addCfg, AggMode.isAdd, defaultDelta1]
    try ring

theorem Cons_batchFold :
    ∀ (l : List (Int × Int)) (u : Coll), u.total1 = sumElem2 u.elems →
      ((l.foldl (fun t p => (pushOne addCfg true t p.1 p.2 none).2) u).total1
        = sumElem2 (l.foldl (fun t p => (pushOne addCfg true t p.1 p.2 none).2) u).elems) := by
  intro l
  induction l with
  | nil => intro u hu; exact hu
  | cons x xs ih =>
    intro u hu
    exact ih _ (Cons_push _ _ _ _ _ hu)

theorem Cons_step (s : Coll) (op : Op) (h : Inv addCfg s)
    (hc : s.total1 = sumElem2 s.elems) :
    (step addCfg s op).total1 = sumElem2 (step addCfg s op).elems := by
  cases op with
  | push e1 e2 key => exact Cons_push _ _ _ _ _ hc
  | mutate id a b2 => exact Cons_mutate _ _ _ _ h hc
  | eraseId id => exact Cons_erase _ _ h hc
  | eraseKey k =>
    rcases hk : alookup k s.keyIndex with _ | id <;>
      simp only [step, eraseByKeyOp, hk]
    · exact hc
    · exact Cons_erase _ _ h hc
  | setCmp c =>
    simp only [step, setCompareOp]
    split <;> simpa [sumElem2] using hc
  | rebuild =>
    simp only [step, rebuildOp]
    split <;> simpa [sumElem2] using hc
  | batchPush vals =>
    rcases vals with _ | ⟨v, t⟩
    · exact hc
    · have hfold := Cons_batchFold (v :: t) s hc
      simpa [step, batchPushOp] using hfold

theorem Cons_run :
    ∀ (ops : List Op) (s : Coll), Inv addCfg s → s.total1 = sumElem2 s.elems →
      (run addCfg ops s).total1 = sumElem2 (run addCfg ops s).elems := by
  intro ops
  induction ops with
  | nil => intro s _ hc; exact hc
  | cons op t ih =>
    intro s h hc
    exact ih _ (Inv_step _ _ _ h) (Cons_step _ _ h hc)

/-- C1: in Add mode with the default delta functions, `total1()` is always
the cumulative sum of every applied `delta1` transition, which telescopes
to the fold of every live element's contribution from the zero element,
i.e. the sum of the live `lastElem2` values; in particular pushing
`(1,10)`, `(2,5)`, `(3,20)` yields `total1() == 35`. -/
theorem C1_add_conservation :
    (∀ ops : List Op,
      (run addCfg ops (initColl addCfg)).total1
        = sumElem2 (run addCfg ops (initColl addCfg)).elems)
    ∧ (run addCfg [Op.push 1 10 none, Op.push 2 5 none, Op.push 3 20 none]
        (initColl addCfg)).total1 = 35 := by
  constructor
  · intro ops
    exact Cons_run ops _ (Inv_init _) rfl
  · decide

/-- C3: with the ordered-index feature enabled, after any operation
sequence the ordered index holds exactly the ids of the element store
(without duplicates on either side), and `size()` equals the number of
live elements. -/
theorem C3_index_store_consistency :
    ∀ ops : List Op,
      ((run ordCfg ops (initColl ordCfg)).orderedIndex.Nodup ∧
        ((run ordCfg ops (initColl ordCfg)).elems.map Prod.fst).Nodup ∧
        ∀ z, z ∈ (run ordCfg ops (initColl ordCfg)).orderedIndex ↔
          z ∈ (run ordCfg ops (initColl ordCfg)).elems.map Prod.fst) ∧
      collSize (run ordCfg ops (initColl ordCfg))
        = (run ordCfg ops (initColl ordCfg)).elems.length := by
  intro ops
  have h := Inv_run ordCfg ops _ (Inv_init ordCfg)
  have ho := h.ordMem rfl
  exact ⟨⟨ho.1, h.mapNodup, ho.2⟩, h.countEq⟩

/-! ## Min/Max-mode correctness -/

theorem toMulti_eq_zero {l : List (Int × Nat)} (hpos : IdxPos l)
    (h : toMulti l = 0) : l = [] := by
  rcases l with _ | ⟨⟨k, c⟩, t⟩
  · rfl
  · exfalso
    have hc : 0 < c := hpos _ (List.mem_cons_self _ _)
    rw [toMulti_cons] at h
    have hk : k ∈ (0 : Multiset Int) := by
      rw [← h, Multiset.mem_add, Multiset.mem_replicate]
      exact Or.inl ⟨Nat.pos_iff_ne_zero.mp hc, rfl⟩
    simp at hk

theorem minMode_total1 (c : Bool) (ops : List Op)
    (hne : (run (minMaxCfg .Min c) ops (initColl (minMaxCfg .Min c))).elems ≠ []) :
    minList (liveExt1 (minMaxCfg .Min c)
        (run (minMaxCfg .Min c) ops (initColl (minMaxCfg .Min c))))
      = some (run (minMaxCfg .Min c) ops (initColl (minMaxCfg .Min c))).total1 := by
  have h := Inv_run (minMaxCfg .Min c) ops _ (Inv_init _)
  have hm1 : (minMaxCfg .Min c).mode1.isAdd = false := rfl
  have hmulti := h.idx1Multi hm1
  have hpub := h.total1Pub hm1
  have hlne : liveExt1 (minMaxCfg .Min c)
      (run (minMaxCfg .Min c) ops (initColl (minMaxCfg .Min c))) ≠ [] := by
    simp only [liveExt1]
    simpa using hne
  have hidxne : (run (minMaxCfg .Min c) ops (initColl (minMaxCfg .Min c))).idx1 ≠ [] := by
    intro he
    rw [he, toMulti_nil] at hmulti
    exact hlne ((Multiset.coe_eq_zero _).mp hmulti.symm)
  rcases topIdx_min_spec h.idx1Sorted h.idx1Pos hidxne with ⟨m, ht1, ht2, ht3⟩
  rcases minList_spec _ hlne with ⟨m2, hq1, hq2, hq3⟩
  have hmm : m = m2 := by
    apply le_antisymm
    · refine ht3 m2 ?_
      rw [hmulti]
      exact Multiset.mem_coe.mpr hq2
    · refine hq3 m ?_
      rw [hmulti] at ht2
      exact Multiset.mem_coe.mp ht2
  have hpub2 : _ = (topIdx AggMode.Min
      (run (minMaxCfg .Min c) ops (initColl (minMaxCfg .Min c))).idx1).getD (0 : Int) :=
    hpub
  rw [hq1, hpub2, ht1, hmm]
  rfl

theorem maxMode_total1 (c : Bool) (ops : List Op)
    (hne : (run (minMaxCfg .Max c) ops (initColl (minMaxCfg .Max c))).elems ≠ []) :
    maxList (liveExt1 (minMaxCfg .Max c)
        (run (minMaxCfg .Max c) ops (initColl (minMaxCfg .Max c))))
      = some (run (minMaxCfg .Max c) ops (initColl (minMaxCfg .Max c))).total1 := by
  have h := Inv_run (minMaxCfg .Max c) ops _ (Inv_init _)
  have hm1 : (minMaxCfg .Max c).mode1.isAdd = false := rfl
  have hmulti := h.idx1Multi hm1
  have hpub := h.total1Pub hm1
  have hlne : liveExt1 (minMaxCfg .Max c)
      (run (minMaxCfg .Max c) ops (initColl (minMaxCfg .Max c))) ≠ [] := by
    simp only [liveExt1]
    simpa using hne
  have hidxne : (run (minMaxCfg .Max c) ops (initColl (minMaxCfg .Max c))).idx1 ≠ [] := by
    intro he
    rw [he, toMulti_nil] at hmulti
    exact hlne ((Multiset.coe_eq_zero _).mp hmulti.symm)
  rcases topIdx_max_spec _ h.idx1Sorted h.idx1Pos hidxne with ⟨m, ht1, ht2, ht3⟩
  rcases maxList_spec _ hlne with ⟨m2, hq1, hq2, hq3⟩
  have hmm : m = m2 := by
    apply le_antisymm
    · refine hq3 m ?_
      rw [hmulti] at ht2
      exact Multiset.mem_coe.mp ht2
    · refine ht3 m2 ?_
      rw [hmulti]
      exact Multiset.mem_coe.mpr hq2
  have hpub2 : _ = (topIdx AggMode.Max
      (run (minMaxCfg .Max c) ops (initColl (minMaxCfg .Max c))).idx1).getD (0 : Int) :=
    hpub
  rw [hq1, hpub2, ht1, hmm]
  rfl

/-- C2: in Min (resp. Max) mode with the default extractor, at every
quiescent point with live elements `total1()` is the minimum
(resp. maximum) of the extracted values of the live elements, in either
publication mode; erasing one duplicate of the extreme keeps `total1()`
until the last copy goes (concrete duplicate scenario), and Scenario B
holds: pushes `(1,10)`, `(2,5)`, `(3,20)` give `total1() == 5`, erasing the
id of `(2,5)` gives `total1() == 10`. -/
theorem C2_minmax_total1 :
    (∀ (c : Bool) (ops : List Op),
      (run (minMaxCfg .Min c) ops (initColl (minMaxCfg .Min c))).elems ≠ [] →
      minList (liveExt1 (minMaxCfg .Min c)
          (run (minMaxCfg .Min c) ops (initColl (minMaxCfg .Min c))))
        = some (run (minMaxCfg .Min c) ops (initColl (minMaxCfg .Min c))).total1)
    ∧ (∀ (c : Bool) (ops : List Op),
      (run (minMaxCfg .Max c) ops (initColl (minMaxCfg .Max c))).elems ≠ [] →
      maxList (liveExt1 (minMaxCfg .Max c)
          (run (minMaxCfg .Max c) ops (initColl (minMaxCfg .Max c))))
        = some (run (minMaxCfg .Max c) ops (initColl (minMaxCfg .Max c))).total1)
    ∧ (run (minMaxCfg .Min false)
        [Op.push 1 10 none, Op.push 2 5 none, Op.push 3 20 none]
        (initColl (minMaxCfg .Min false))).total1 = 5
    ∧ (run (minMaxCfg .Min false)
        [Op.push 1 10 none, Op.push 2 5 none, Op.push 3 20 none, Op.eraseId 2]
        (initColl (minMaxCfg .Min false))).total1 = 10
    ∧ (run (minMaxCfg .Min false)
        [Op.push 1 5 none, Op.push 2 5 none, Op.push 3 7 none, Op.eraseId 1]
        (initColl (minMaxCfg .Min false))).total1 = 5
    ∧ (run (minMaxCfg .Min false)
        [Op.push 1 5 none, Op.push 2 5 none, Op.push 3 7 none, Op.eraseId 1,
          Op.eraseId 2]
        (initColl (minMaxCfg .Min false))).total1 = 7 := by
  exact ⟨minMode_total1, maxMode_total1, by decide, by decide, by decide, by decide⟩

/-- C2 witness: the Min-mode characterization applied to a concrete run. -/
theorem C2_minmax_total1_witness :
    ((run (minMaxCfg .Min false) [Op.push 1 10 none, Op.push 2 5 none]
        (initColl (minMaxCfg .Min false))).elems ≠ []) ∧
    minList (liveExt1 (minMaxCfg .Min false)
        (run (minMaxCfg .Min false) [Op.push 1 10 none, Op.push 2 5 none]
          (initColl (minMaxCfg .Min false))))
      = some (run (minMaxCfg .Min false) [Op.push 1 10 none, Op.push 2 5 none]
          (initColl (minMaxCfg .Min false))).total1 :=
  ⟨by decide,
    C2_minmax_total1.1 false [Op.push 1 10 none, Op.push 2 5 none] (by decide)⟩

/-- C10: in Min or Max mode, in either publication mode, whenever the
collection is empty the published `total1()` is the default-constructed
zero, not a stale extreme. -/
theorem C10_empty_total1_zero (m : AggMode) (c : Bool) (hm : m ≠ .Add)
    (ops : List Op)
    (he : (run (minMaxCfg m c) ops (initColl (minMaxCfg m c))).elems = []) :
    (run (minMaxCfg m c) ops (initColl (minMaxCfg m c))).total1 = 0 := by
  have h := Inv_run (minMaxCfg m c) ops _ (Inv_init _)
  have hm1 : (minMaxCfg m c).mode1.isAdd = false := by
    cases m
    · exact absurd rfl hm
    · rfl
    · rfl
  have hmulti := h.idx1Multi hm1
  have hpub := h.total1Pub hm1
  have hidx : (run (minMaxCfg m c) ops (initColl (minMaxCfg m c))).idx1 = [] := by
    apply toMulti_eq_zero h.idx1Pos
    rw [hmulti]
    simp [liveExt1, he]
  rw [hpub, hidx]
  cases m with
  | Add => exact absurd rfl hm
  | Min => simp [topIdx, minMaxCfg, addCfg]
  | Max => simp [topIdx, minMaxCfg, addCfg]

/-- C10 witness: push then erase empties the collection and republishes
zero (Min mode, combined-atomic publication). -/
theorem C10_empty_total1_zero_witness :
    (AggMode.Min ≠ AggMode.Add) ∧
    ((run (minMaxCfg .Min true) [Op.push 4 9 none, Op.eraseId 1]
        (initColl (minMaxCfg .Min true))).elems = []) ∧
    (run (minMaxCfg .Min true) [Op.push 4 9 none, Op.eraseId 1]
        (initColl (minMaxCfg .Min true))).total1 = 0 :=
  ⟨by decide, by decide,
    C10_empty_total1_zero .Min true (by decide) [Op.push 4 9 none, Op.eraseId 1]
      (by decide)⟩

/-- C5 counterexample: with the ordered index and the default lexicographic
comparator, after pushing `(1,5)`, `(2,3)`, `(3,9)` the element `(2,3)` has
id 2, but `bottom_k(1)` does not return `[2]` — the claim's Scenario C
fails on the code (the comparator orders by `elem1` first, so `(1,5)` is
the bottom element). -/
theorem C5_counterexample :
    alookup 2 (run ordCfg [Op.push 1 5 none, Op.push 2 3 none, Op.push 3 9 none]
        (initColl ordCfg)).elems
      = some { lastElem1 := 2, lastElem2 := 3, key := none }
    ∧ bottomK (run ordCfg [Op.push 1 5 none, Op.push 2 3 none, Op.push 3 9 none]
        (initColl ordCfg)) 1 ≠ [2] := by
  decide

/-- C5 amended: under the default lexicographic comparator, after pushing
`(1,5)`, `(2,3)`, `(3,9)`, `bottom_k(1)` returns the id of `(1,5)` (id 1),
and after mutating `(2,3)`'s second field to `20` it still returns the id
of `(1,5)`. -/
theorem C5_amended_bottomK :
    bottomK (run ordCfg [Op.push 1 5 none, Op.push 2 3 none, Op.push 3 9 none]
        (initColl ordCfg)) 1 = [1]
    ∧ bottomK (run ordCfg [Op.push 1 5 none, Op.push 2 3 none, Op.push 3 9 none,
        Op.mutate 2 2 20] (initColl ordCfg)) 1 = [1] := by
  decide

/-- C6: when a mutation's old and new field tuples are equivalent under the
current comparator (neither strictly precedes the other), the ordered index
is left untouched — its id sequence is unchanged; otherwise (ordered index
enabled) the id is erased and reinserted under the new snapshot. -/
theorem C6_equiv_skips_reinsert (cfg : Config) (s : Coll) (id : Nat)
    (ne1 ne2 : Int) (r : Rec) (hr : alookup id s.elems = some r) :
    ((s.cmp r.lastElem1 r.lastElem2 ne1 ne2 = false ∧
      s.cmp ne1 ne2 r.lastElem1 r.lastElem2 = false) →
      (mutateOp cfg s id ne1 ne2).orderedIndex = s.orderedIndex)
    ∧ (cfg.maintainOrdered = true →
      (s.cmp r.lastElem1 r.lastElem2 ne1 ne2 = true ∨
       s.cmp ne1 ne2 r.lastElem1 r.lastElem2 = true) →
      (mutateOp cfg s id ne1 ne2).orderedIndex
        = orderedInsert (idLt { s with elems := updateElem id ne1 ne2 s.elems })
            id (s.orderedIndex.filter (fun y => y ≠ id))) := by
  constructor
  · rintro ⟨h1, h2⟩
    exact mutateOp_orderedIndex_equiv cfg s id ne1 ne2 r hr h1 h2
  · intro hmo h
    exact mutateOp_orderedIndex_reinsert cfg s id ne1 ne2 r hr hmo h

/-- C6 witness: on a concrete two-element collection, a mutation to an
equivalent tuple leaves the ordered index untouched, and a mutation to a
non-equivalent tuple erases and reinserts the id. -/
theorem C6_equiv_skips_reinsert_witness :
    ((mutateOp ordCfg
        (run ordCfg [Op.push 1 5 none, Op.push 2 3 none] (initColl ordCfg))
        1 1 5).orderedIndex
      = (run ordCfg [Op.push 1 5 none, Op.push 2 3 none]
          (initColl ordCfg)).orderedIndex)
    ∧ ((mutateOp ordCfg
        (run ordCfg [Op.push 1 5 none, Op.push 2 3 none] (initColl ordCfg))
        2 9 9).orderedIndex
      = orderedInsert
          (idLt { run ordCfg [Op.push 1 5 none, Op.push 2 3 none]
              (initColl ordCfg) with
            elems := updateElem 2 9 9
              (run ordCfg [Op.push 1 5 none, Op.push 2 3 none]
                (initColl ordCfg)).elems })
          2 ((run ordCfg [Op.push 1 5 none, Op.push 2 3 none]
              (initColl ordCfg)).orderedIndex.filter (fun y => y ≠ 2))) :=
  ⟨(C6_equiv_skips_reinsert ordCfg _ 1 1 5
      { lastElem1 := 1, lastElem2 := 5, key := none } (by decide)).1
      ⟨by decide, by decide⟩,
   (C6_equiv_skips_reinsert ordCfg _ 2 9 9
      { lastElem1 := 2, lastElem2 := 3, key := none } (by decide)).2
      rfl (Or.inl (by decide))⟩

/-- C7: `erase` is idempotent — erasing an absent id leaves the entire
collection state unchanged, and erasing the same id twice has exactly the
effect of erasing it once. -/
theorem C7_erase_idempotent (cfg : Config) (s : Coll) (id : Nat) :
    (alookup id s.elems = none → eraseOp cfg s id = s)
    ∧ eraseOp cfg (eraseOp cfg s id) id = eraseOp cfg s id := by
  constructor
  · intro h
    exact eraseOp_absent cfg s id h
  · rcases hr : alookup id s.elems with _ | r
    · rw [eraseOp_absent cfg s id hr]
      exact eraseOp_absent cfg s id hr
    · apply eraseOp_absent
      rw [eraseOp_elems cfg s id r hr]
      exact alookup_filter_self id _

/-- C7 witness: erasing an id that was never allocated leaves the fresh
collection unchanged. -/
theorem C7_erase_idempotent_witness :
    (alookup 5 (initColl addCfg).elems = none)
    ∧ eraseOp addCfg (initColl addCfg) 5 = initColl addCfg :=
  ⟨by decide, (C7_erase_idempotent addCfg (initColl addCfg) 5).1 (by decide)⟩

/-! ## Key-index bijection under fresh keys -/

theorem alookup_append_single_ne {α β : Type} [DecidableEq α] {k0 k : α}
    (h : k0 ≠ k) (l : List (α × β)) (v : β) :
    alookup k0 (l ++ [(k, v)]) = alookup k0 l := by
  rcases hl : alookup k0 l with _ | r
  · rw [alookup_append_right _ hl]
    simp [alookup, Ne.symm h]
  · exact alookup_append_left _ hl

theorem alookup_of_mem_nodup {α β : Type} [DecidableEq α] {a : α} {b : β} :
    ∀ {l : List (α × β)}, (l.map Prod.fst).Nodup → (a, b) ∈ l →
      alookup a l = some b := by
  intro l
  induction l with
  | nil => intro _ hm; simp at hm
  | cons p t ih =>
    intro hn hm
    rw [List.map_cons, List.nodup_cons] at hn
    rcases List.mem_cons.mp hm with hm | hm
    · rw [← hm]
      simp [alookup]
    · have hpa : p.1 ≠ a := by
        intro he
        exact hn.1 (he ▸ List.mem_map_of_mem Prod.fst hm)
      simp [alookup, hpa]
      exact ih hn.2 hm

theorem KB_init (cfg : Config) : KB (initColl cfg) := by
  intro k id
  simp [initColl, alookup]

theorem KB_push_none (cfg : Config) (b : Bool) (s : Coll) (e1 e2 : Int)
    (hI : Inv cfg s) (h : KB s) : KB (pushOne cfg b s e1 e2 none).2 := by
  intro k id0
  rw [pushOne_keyIndex_none, pushOne_elems]
  have hfr : alookup s.nextId s.elems = none := by
    rw [alookup_eq_none_iff]
    intro p hp he
    exact lt_irrefl _ (he ▸ hI.fresh _ (List.mem_map_of_mem Prod.fst hp))
  constructor
  · intro hL
    rcases (h k id0).mp hL with ⟨r, hr, hk⟩
    exact ⟨r, alookup_append_left _ hr, hk⟩
  · rintro ⟨r, hr, hk⟩
    rcases hl : alookup id0 s.elems with _ | r0
    · rw [alookup_append_right _ hl] at hr
      by_cases hid : id0 = s.nextId
      · subst hid
        simp [alookup] at hr
        rw [← hr] at hk
        exact Option.noConfusion hk
      · have hne : s.nextId ≠ id0 := fun he => hid he.symm
        simp [alookup, hne] at hr
    · rw [alookup_append_left _ hl] at hr
      injection hr with hrr
      exact (h k id0).mpr ⟨r0, hl, by rw [hrr]; exact hk⟩

theorem KB_push_some (cfg : Config) (b : Bool) (s : Coll) (e1 e2 : Int)
    (k : Int) (hI : Inv cfg s) (h : KB s)
    (hfresh : ∀ p ∈ s.elems, p.2.key ≠ some k) :
    KB (pushOne cfg b s e1 e2 (some k)).2 := by
  have hknone : alookup k s.keyIndex = none := by
    rcases hk : alookup k s.keyIndex with _ | id1
    · rfl
    · rcases (h k id1).mp hk with ⟨r, hr, hkey⟩
      exact absurd hkey (hfresh _ (alookup_mem hr))
  have hfr : alookup s.nextId s.elems = none := by
    rw [alookup_eq_none_iff]
    intro p hp he
    exact lt_irrefl _ (he ▸ hI.fresh _ (List.mem_map_of_mem Prod.fst hp))
  intro k0 id0
  rw [pushOne_keyIndex_some, pushOne_elems, if_pos hknone]
  by_cases hk0 : k0 = k
  · subst hk0
    rw [alookup_append_right _ hknone]
    constructor
    · intro hL
      simp [alookup] at hL
      subst hL
      refine ⟨{ lastElem1 := e1, lastElem2 := e2, key := some k0 }, ?_, rfl⟩
      rw [alookup_append_right _ hfr]
      simp [alookup]
    · rintro ⟨r, hr, hkey⟩
      by_cases hid : id0 = s.nextId
      · subst hid
        simp [alookup]
      · rcases hl : alookup id0 s.elems with _ | r0
        · rw [alookup_append_right _ hl] at hr
          have hne : s.nextId ≠ id0 := fun he => hid he.symm
          simp [alookup, hne] at hr
        · rw [alookup_append_left _ hl] at hr
          injection hr with hrr
          subst hrr
          exact absurd hkey (hfresh _ (alookup_mem hl))
  · rw [alookup_append_single_ne hk0]
    constructor
    · intro hL
      rcases (h k0 id0).mp hL with ⟨r, hr, hkey⟩
      exact ⟨r, alookup_append_left _ hr, hkey⟩
    · rintro ⟨r, hr, hkey⟩
      by_cases hid : id0 = s.nextId
      · subst hid
        rw [alookup_append_right _ hfr] at hr
        simp [alookup] at hr
        rw [← hr] at hkey
        injection hkey with hkk
        exact absurd hkk.symm hk0
      · rcases hl : alookup id0 s.elems with _ | r0
        · rw [alookup_append_right _ hl] at hr
          have hne : s.nextId ≠ id0 := fun he => hid he.symm
          simp [alookup, hne] at hr
        · rw [alookup_append_left _ hl] at hr
          injection hr with hrr
          exact (h k0 id0).mpr ⟨r0, hl, by rw [hrr]; exact hkey⟩

theorem KB_mutate (cfg : Config) (s : Coll) (id : Nat) (ne1 ne2 : Int)
    (h : KB s) : KB (mutateOp cfg s id ne1 ne2) := by
  rcases hr : alookup id s.elems with _ | r
  · rw [mutateOp_absent _ _ _ _ _ hr]
    exact h
  · intro k0 id0
    rw [mutateOp_keyIndex _ _ _ _ _ _ hr, mutateOp_elems _ _ _ _ _ _ hr]
    rw [h k0 id0]
    constructor
    · rintro ⟨r2, hr2, hk2⟩
      refine ⟨(if id0 = id then { r2 with lastElem1 := ne1, lastElem2 := ne2 }
        else r2), ?_, ?_⟩
      · rw [alookup_updateElem, hr2]
        simp
      · by_cases hid : id0 = id <;> simp [hid, hk2]
    · rintro ⟨r2, hr2, hk2⟩
      rw [alookup_updateElem] at hr2
      rcases hl : alookup id0 s.elems with _ | r0
      · rw [hl] at hr2
        exact Option.noConfusion hr2
      · rw [hl] at hr2
        injection hr2 with hrr
        refine ⟨r0, rfl, ?_⟩
        rw [← hrr] at hk2
        by_cases hid : id0 = id
        · simpa [hid] using hk2
        · simpa [hid] using hk2

theorem KB_erase (cfg : Config) (s : Coll) (id : Nat) (h : KB s) :
    KB (eraseOp cfg s id) := by
  rcases hr : alookup id s.elems with _ | r
  · rw [eraseOp_absent _ _ _ hr]
    exact h
  · intro k0 id0
    rw [eraseOp_keyIndex _ _ _ _ hr, eraseOp_elems _ _ _ _ hr]
    rcases hk : r.key with _ | k
    · simp only [hk]
      rw [h k0 id0]
      constructor
      · rintro ⟨r2, hr2, hk2⟩
        have hid : id0 ≠ id := by
          intro he
          rw [he, hr] at hr2
          injection hr2 with hh
          rw [← hh, hk] at hk2
          exact Option.noConfusion hk2
        refine ⟨r2, ?_, hk2⟩
        rw [alookup_filter_ne hid]
        exact hr2
      · rintro ⟨r2, hr2, hk2⟩
        by_cases hid : id0 = id
        · rw [hid] at hr2
          rw [alookup_filter_self] at hr2
          exact Option.noConfusion hr2
        · rw [alookup_filter_ne hid] at hr2
          exact ⟨r2, hr2, hk2⟩
    · simp only [hk]
      by_cases hk0 : k0 = k
      · subst hk0
        rw [alookup_filter_self]
        constructor
        · intro hL
          exact Option.noConfusion hL
        · rintro ⟨r2, hr2, hk2⟩
          exfalso
          by_cases hid : id0 = id
          · rw [hid, alookup_filter_self] at hr2
            exact Option.noConfusion hr2
          · rw [alookup_filter_ne hid] at hr2
            have h1 : alookup k0 s.keyIndex = some id0 :=
              (h k0 id0).mpr ⟨r2, hr2, hk2⟩
            have h2 : alookup k0 s.keyIndex = some id :=
              (h k0 id).mpr ⟨r, hr, hk⟩
            rw [h1] at h2
            injection h2 with hh
            exact hid hh
      · rw [alookup_filter_ne hk0, h k0 id0]
        constructor
        · rintro ⟨r2, hr2, hk2⟩
          have hid : id0 ≠ id := by
            intro he
            rw [he, hr] at hr2
            injection hr2 with hh
            rw [← hh, hk] at hk2
            injection hk2 with hkk
            exact hk0 hkk.symm
          refine ⟨r2, ?_, hk2⟩
          rw [alookup_filter_ne hid]
          exact hr2
        · rintro ⟨r2, hr2, hk2⟩
          by_cases hid : id0 = id
          · rw [hid, alookup_filter_self] at hr2
            exact Option.noConfusion hr2
          · rw [alookup_filter_ne hid] at hr2
            exact ⟨r2, hr2, hk2⟩

theorem KB_setCompare (cfg : Config) (s : Coll)
    (c : Int → Int → Int → Int → Bool) (h : KB s) :
    KB (setCompareOp cfg s c) := by
  rw [setCompareOp]
  split
  · exact h
  · exact h

theorem KB_rebuild (cfg : Config) (s : Coll) (h : KB s) :
    KB (rebuildOp cfg s) := by
  rw [rebuildOp]
  split
  · exact h
  · exact h

theorem KB_batchFold (cfg : Config) :
    ∀ (l : List (Int × Int)) (u : Coll), Inv cfg u → KB u →
      KB (l.foldl (fun t p => (pushOne cfg true t p.1 p.2 none).2) u) := by
  intro l
  induction l with
  | nil => intro u _ hu; exact hu
  | cons x xs ih =>
    intro u hI hu
    exact ih _ (Inv_push _ _ _ _ _ _ hI) (KB_push_none _ _ _ _ _ hI hu)

theorem KB_step (cfg : Config) (s : Coll) (op : Op) (hI : Inv cfg s)
    (h : KB s) (hg : goodStep s op = true) : KB (step cfg s op) := by
  cases op with
  | push e1 e2 key =>
    rcases key with _ | k
    · exact KB_push_none _ _ _ _ _ hI h
    · refine KB_push_some _ _ _ _ _ _ hI h ?_
      intro p hp
      rw [goodStep, List.all_eq_true] at hg
      simpa using hg p hp
  | mutate id a b2 => exact KB_mutate _ _ _ _ _ h
  | eraseId id => exact KB_erase _ _ _ h
  | eraseKey k =>
    rcases hk : alookup k s.keyIndex with _ | id <;>
      simp only [step, eraseByKeyOp, hk]
    · exact h
    · exact KB_erase _ _ _ h
  | setCmp c => exact KB_setCompare _ _ _ h
  | rebuild => exact KB_rebuild _ _ h
  | batchPush vals =>
    rcases vals with _ | ⟨v, t⟩
    · exact h
    · have hfold := KB_batchFold cfg (v :: t) s hI h
      intro k0 id0
      exact hfold k0 id0

theorem KB_run (cfg : Config) :
    ∀ (ops : List Op) (s : Coll), Inv cfg s → KB s →
      goodKeysB cfg s ops = true → KB (run cfg ops s) := by
  intro ops
  induction ops with
  | nil => intro s _ h _; exact h
  | cons op t ih =>
    intro s hI h hg
    rw [goodKeysB, Bool.and_eq_true] at hg
    exact ih _ (Inv_step _ _ _ hI) (KB_step _ _ _ hI h hg.1) hg.2

/-- C4 counterexample: pushing two live elements with the same key breaks
the claimed biconditional — `find_by_key(1)` returns `Some(1)` (the TBB
`insert` is insert-if-absent, so the second push leaves the first entry)
while two live elements carry key 1, not exactly one. -/
theorem C4_counterexample :
    findByKey (run addCfg [Op.push 0 0 (some 1), Op.push 0 0 (some 1)]
        (initColl addCfg)) 1 = some 1
    ∧ ((run addCfg [Op.push 0 0 (some 1), Op.push 0 0 (some 1)]
        (initColl addCfg)).elems.filter (fun p => p.2.key = some 1)).length = 2 := by
  decide

/-- C4 amended: provided no `push_back` ever reuses the key of a
currently-live element, `find_by_key(k)` returns `Some(id)` iff `id` is
live with key `k`; that live element is then unique, and after `erase(id)`
`find_by_key` of that key returns `None`. -/
theorem C4_amended_key_uniqueness (ops : List Op)
    (hg : goodKeysB addCfg (initColl addCfg) ops = true) :
    ∀ k id,
      (findByKey (run addCfg ops (initColl addCfg)) k = some id ↔
        ∃ r, alookup id (run addCfg ops (initColl addCfg)).elems = some r ∧
          r.key = some k)
      ∧ (findByKey (run addCfg ops (initColl addCfg)) k = some id →
          ∀ p ∈ (run addCfg ops (initColl addCfg)).elems,
            p.2.key = some k → p.1 = id)
      ∧ (findByKey (run addCfg ops (initColl addCfg)) k = some id →
          findByKey (eraseOp addCfg (run addCfg ops (initColl addCfg)) id) k
            = none) := by
  have hI := Inv_run addCfg ops _ (Inv_init addCfg)
  have hkb := KB_run addCfg ops _ (Inv_init addCfg) (KB_init addCfg) hg
  intro k id
  refine ⟨hkb k id, ?_, ?_⟩
  · intro hf p hp hpk
    rcases p with ⟨i, r⟩
    have hlook : alookup i (run addCfg ops (initColl addCfg)).elems = some r :=
      alookup_of_mem_nodup hI.mapNodup hp
    have hf2 : findByKey (run addCfg ops (initColl addCfg)) k = some i :=
      (hkb k i).mpr ⟨r, hlook, hpk⟩
    rw [hf] at hf2
    injection hf2 with hh
    exact hh.symm
  · intro hf
    have hkb2 := KB_erase addCfg _ id hkb
    rcases hf2 : findByKey (eraseOp addCfg (run addCfg ops (initColl addCfg)) id) k
      with _ | j
    · rfl
    · exfalso
      rcases (hkb2 k j).mp hf2 with ⟨r2, hr2, hk2⟩
      rcases hr : alookup id (run addCfg ops (initColl addCfg)).elems with _ | r
      · rw [eraseOp_absent _ _ _ hr] at hr2
        have hj2 := (hkb k j).mpr ⟨r2, hr2, hk2⟩
        have hf3 : alookup k (run addCfg ops (initColl addCfg)).keyIndex = some id := hf
        rw [hf3] at hj2
        injection hj2 with hh
        rw [hh] at hr
        rw [hr] at hr2
        exact Option.noConfusion hr2
      · rw [eraseOp_elems _ _ _ _ hr] at hr2
        have hji : j ≠ id := by
          intro he
          rw [he, alookup_filter_self] at hr2
          exact Option.noConfusion hr2
        rw [alookup_filter_ne hji] at hr2
        have hj2 := (hkb k j).mpr ⟨r2, hr2, hk2⟩
        have hf3 : alookup k (run addCfg ops (initColl addCfg)).keyIndex = some id := hf
        rw [hf3] at hj2
        injection hj2 with hh
        exact hji hh.symm

/-- C4 witness: with two distinct keys pushed, the amended biconditional
holds at key 2 and id 2. -/
theorem C4_amended_key_uniqueness_witness :
    (goodKeysB addCfg (initColl addCfg)
        [Op.push 0 0 (some 1), Op.push 0 0 (some 2)] = true)
    ∧ (findByKey (run addCfg [Op.push 0 0 (some 1), Op.push 0 0 (some 2)]
          (initColl addCfg)) 2 = some 2 ↔
        ∃ r, alookup 2 (run addCfg [Op.push 0 0 (some 1), Op.push 0 0 (some 2)]
            (initColl addCfg)).elems = some r ∧ r.key = some 2) :=
  ⟨by decide,
    (C4_amended_key_uniqueness [Op.push 0 0 (some 1), Op.push 0 0 (some 2)]
      (by decide) 2 2).1⟩

/-! ## Batch push vs. individual pushes -/

theorem EqMod_refl (s : Coll) : EqMod s s :=
  ⟨rfl, rfl, rfl, rfl, rfl, rfl, rfl, rfl, rfl, rfl⟩

theorem pushOne_EqMod (cfg : Config) (b1 b2 : Bool) (s t : Coll)
    (e1 e2 : Int) (hmo : cfg.maintainOrdered = false) (hEq : EqMod s t) :
    EqMod (pushOne cfg b1 s e1 e2 none).2 (pushOne cfg b2 t e1 e2 none).2 := by
  rcases hEq with ⟨h1, h2, h3, h4, h5, h6, h7, h8, h9, h10⟩
  refine ⟨?_, ?_, ?_, ?_, ?_, ?_, ?_, ?_, ?_, ?_⟩
  · rw [pushOne_elems, pushOne_elems, h1, h9]
  · rw [pushOne_keyIndex_none, pushOne_keyIndex_none, h2]
  · rw [pushOne_orderedIndex_off _ _ _ _ _ _ hmo,
      pushOne_orderedIndex_off _ _ _ _ _ _ hmo, h3]
  · rw [pushOne_idx1, pushOne_idx1, h4]
  · rw [pushOne_idx2, pushOne_idx2, h5]
  · rw [pushOne_total1, pushOne_total1, h4, h6]
  · rw [pushOne_total2, pushOne_total2, h5, h7]
  · rw [pushOne_cmp, pushOne_cmp, h8]
  · rw [pushOne_nextId, pushOne_nextId, h9]
  · rw [pushOne_elemCount, pushOne_elemCount, h10]

theorem pushOne_notify_addCfg (b : Bool) (s : Coll) (e1 e2 : Int) :
    (pushOne addCfg b s e1 e2 none).2.notifyCycles
      = s.notifyCycles + (if b then 0 else 2) := by
  cases b <;>
    simp [pushOne, applyPair, addCfg, AggMode.isAdd]

theorem batchFold_EqMod (l : List (Int × Int)) :
    ∀ s t : Coll, EqMod s t →
      EqMod (l.foldl (fun u p => (pushOne addCfg true u p.1 p.2 none).2) s)
        (l.foldl (fun u p => (pushOne addCfg false u p.1 p.2 none).2) t) := by
  induction l with
  | nil => intro s t h; exact h
  | cons x xs ih =>
    intro s t h
    exact ih _ _ (pushOne_EqMod addCfg true false s t x.1 x.2 rfl h)

theorem batchFold_notify (l : List (Int × Int)) :
    ∀ s : Coll,
      (l.foldl (fun u p => (pushOne addCfg true u p.1 p.2 none).2) s).notifyCycles
        = s.notifyCycles := by
  induction l with
  | nil => intro s; rfl
  | cons x xs ih =>
    intro s
    rw [List.foldl_cons, ih, pushOne_notify_addCfg]
    simp

theorem seqFold_notify (l : List (Int × Int)) :
    ∀ s : Coll,
      (l.foldl (fun u p => (pushOne addCfg false u p.1 p.2 none).2) s).notifyCycles
        = s.notifyCycles + 2 * l.length := by
  induction l with
  | nil => intro s; simp
  | cons x xs ih =>
    intro s
    rw [List.foldl_cons, ih, pushOne_notify_addCfg]
    simp
    omega

theorem run_pushList (l : List (Int × Int)) :
    ∀ s : Coll, run addCfg (l.map (fun p => Op.push p.1 p.2 none)) s
      = l.foldl (fun u p => (pushOne addCfg false u p.1 p.2 none).2) s := by
  induction l with
  | nil => intro s; rfl
  | cons x xs ih =>
    intro s
    rw [List.map_cons, List.foldl_cons, ← ih]
    rfl

theorem batchPushOp_cons (s : Coll) (v : Int × Int) (t : List (Int × Int)) :
    batchPushOp addCfg s (v :: t)
      = { (v :: t).foldl (fun u p => (pushOne addCfg true u p.1 p.2 none).2) s
          with notifyCycles :=
            ((v :: t).foldl (fun u p => (pushOne addCfg true u p.1 p.2 none).2)
              s).notifyCycles + 1 } := by
  rfl

/-- C8: with the default configuration, batch `push_back` over a vector of
pairs produces exactly the state of pushing each pair individually in
order — same elements, indices, totals, ids — except that the whole batch
produces a single downstream notification cycle where the sequential
pushes produce one cycle per total publication (two per element). -/
theorem C8_batch_equivalence (s : Coll) (vals : List (Int × Int))
    (hne : vals ≠ []) :
    EqMod (batchPushOp addCfg s vals)
      (run addCfg (vals.map (fun p => Op.push p.1 p.2 none)) s)
    ∧ (batchPushOp addCfg s vals).notifyCycles = s.notifyCycles + 1
    ∧ (run addCfg (vals.map (fun p => Op.push p.1 p.2 none)) s).notifyCycles
        = s.notifyCycles + 2 * vals.length := by
  rcases vals with _ | ⟨v, t⟩
  · exact absurd rfl hne
  rw [run_pushList, batchPushOp_cons]
  refine ⟨?_, ?_, ?_⟩
  · have h := batchFold_EqMod (v :: t) s s (EqMod_refl s)
    exact h
  · rw [batchFold_notify]
  · rw [seqFold_notify]

/-- C8 witness: a concrete two-element batch matches the two sequential
pushes and yields one notification cycle against their four. -/
theorem C8_batch_equivalence_witness :
    (([( (1 : Int), (2 : Int) ), ( (3 : Int), (4 : Int) )]
        : List (Int × Int)) ≠ [])
    ∧ (EqMod (batchPushOp addCfg (initColl addCfg) [(1, 2), (3, 4)])
        (run addCfg [Op.push 1 2 none, Op.push 3 4 none] (initColl addCfg))
      ∧ (batchPushOp addCfg (initColl addCfg) [(1, 2), (3, 4)]).notifyCycles
          = (initColl addCfg).notifyCycles + 1
      ∧ (run addCfg [Op.push 1 2 none, Op.push 3 4 none]
          (initColl addCfg)).notifyCycles
          = (initColl addCfg).notifyCycles + 2 * 2) :=
  ⟨by decide, C8_batch_equivalence (initColl addCfg) [(1, 2), (3, 4)] (by decide)⟩

/-- C9 counterexample: after pushing key 1 twice and erasing the first id,
a live element still carries key 1 while `find_by_key(1)` returns `None`,
so "for a live key `find_by_key` returns its id" fails as stated. -/
theorem C9_counterexample :
    (∃ p ∈ (run addCfg
        [Op.push 0 0 (some 1), Op.push 0 0 (some 1), Op.eraseId 1]
        (initColl addCfg)).elems, p.2.key = some 1)
    ∧ findByKey (run addCfg
        [Op.push 0 0 (some 1), Op.push 0 0 (some 1), Op.eraseId 1]
        (initColl addCfg)) 1 = none := by
  decide

/-- C9 amended: `elem1Var`/`elem2Var` on an absent id raise the "not found"
error (the accessor reads and never mutates), on a live id they return the
element's cell values; `find_by_key` never fails — it returns `None`
whenever no live element carries the key, and when it returns `Some(id)`
that id is live and carries the key (though under duplicate keys a live
key may map to `None`, see the counterexample). -/
theorem C9_amended_error_handling :
    (∀ (s : Coll) (id : Nat), alookup id s.elems = none →
      elem1VarGet s id = .error "elem1Var: id not found" ∧
      elem2VarGet s id = .error "elem2Var: id not found")
    ∧ (∀ (s : Coll) (id : Nat) (r : Rec), alookup id s.elems = some r →
      elem1VarGet s id = .ok r.lastElem1 ∧ elem2VarGet s id = .ok r.lastElem2)
    ∧ (∀ (cfg : Config) (ops : List Op) (k : Int),
      (∀ p ∈ (run cfg ops (initColl cfg)).elems, p.2.key ≠ some k) →
      findByKey (run cfg ops (initColl cfg)) k = none)
    ∧ (∀ (cfg : Config) (ops : List Op) (k : Int) (id : Nat),
      findByKey (run cfg ops (initColl cfg)) k = some id →
      ∃ r, alookup id (run cfg ops (initColl cfg)).elems = some r ∧
        r.key = some k) := by
  refine ⟨?_, ?_, ?_, ?_⟩
  · intro s id h
    rw [elem1VarGet, elem2VarGet, h]
    exact ⟨rfl, rfl⟩
  · intro s id r h
    rw [elem1VarGet, elem2VarGet, h]
    exact ⟨rfl, rfl⟩
  · intro cfg ops k hfree
    have hI := Inv_run cfg ops _ (Inv_init cfg)
    rcases hf : findByKey (run cfg ops (initColl cfg)) k with _ | id
    · rfl
    · exfalso
      rcases hI.keyLive (k, id) (alookup_mem hf) with ⟨r, hr, hk⟩
      exact hfree _ (alookup_mem hr) hk
  · intro cfg ops k id hf
    have hI := Inv_run cfg ops _ (Inv_init cfg)
    exact hI.keyLive (k, id) (alookup_mem hf)

/-- C9 witness: the error branch on a fresh collection and the success
branch on a live element, concretely. -/
theorem C9_amended_error_handling_witness :
    (alookup 7 (initColl addCfg).elems = none) ∧
    elem1VarGet (initColl addCfg) 7 = .error "elem1Var: id not found" ∧
    elem2VarGet (initColl addCfg) 7 = .error "elem2Var: id not found" :=
  ⟨by decide, C9_amended_error_handling.1 (initColl addCfg) 7 (by decide)⟩

end RTFC
